import Mathlib

/-!
# Verification of the delira tag codec and logging-frequency handler

A shallow embedding of `delira/utils/external/trixi/json_utils.py`
(the `MultiTypeEncoder` / `ModuleMultiTypeEncoder` /
`MultiTypeDecoder` / `ModuleMultiTypeDecoder` class hierarchy) and of
`delira/logging/tensorboardx_handler.py`
(`TensorboardXHandler._create_frequencies`).

Python values are modelled by the inductive `PyVal`.  Python strings are
modelled by `String` and all string manipulation is performed on the
underlying character list (Python slicing and `str.split` operate on code
points, which `List Char` models exactly).  A Python `float` is modelled by
the exact decimal value it prints as, a pair `(m, k)` denoting `m / 10 ^ k`;
the codec performs no float arithmetic — it only formats a float with
`format` and re-parses the text with `float(...)`, and CPython
guarantees that this round-trips, which the exact-decimal model satisfies as
well.  Scientific notation, `inf`/`nan`, underscores and surrounding
whitespace accepted by Python's numeric constructors are outside the
fragment the codec ever produces and are not modelled.
-/

/-! ## Decimal digits: `format` on integers and `int(...)` / `float(...)` -/

/-- The character for the decimal digit `d`. -/
def dchar (d : Nat) : Char := Char.ofNat (48 + d)

/-- The numeric value of a digit character. -/
def dval (c : Char) : Nat := c.toNat - 48

/-- Is `c` one of the characters `0`–`9`? -/
def isDigitC (c : Char) : Bool := 48 ≤ c.toNat && c.toNat ≤ 57

/-- Fuelled digit printer: the digits of `n`, most significant first. -/
def natFmtAux : Nat → Nat → List Char
  | 0, _ => []
  | fuel + 1, n => if n < 10 then [dchar n] else natFmtAux fuel (n / 10) ++ [dchar (n % 10)]

/-- The decimal representation of `n`, as `str` prints it in Python. -/
def natFmtChars (n : Nat) : List Char := natFmtAux (n + 1) n

/-- The decimal representation of `n` as a string. -/
def natStr (n : Nat) : String := String.mk (natFmtChars n)

/-- The decimal representation of an integer, as Python `str` prints it. -/
def intReprChars (n : Int) : List Char :=
  (if n < 0 then ['-'] else []) ++ natFmtChars n.natAbs

/-- Python `str(n)` for an `int`. -/
def intRepr (n : Int) : String := String.mk (intReprChars n)

/-- Value of a big-endian digit string. -/
def valBE (cs : List Char) : Nat := cs.foldl (fun a c => 10 * a + dval c) 0

/-- Parse a non-empty all-digit character list, as the digit part of
Python's `int(...)`. -/
def parseNatChars (cs : List Char) : Option Nat :=
  if cs.isEmpty then none
  else if cs.all isDigitC then some (valBE cs) else none

/-- Python's `int(text)` on a character list: an optional sign followed by
decimal digits (whitespace, underscores and base prefixes are not part of
the fragment the codec produces). -/
def parseIntChars (cs : List Char) : Option Int :=
  match cs with
  | [] => none
  | c :: rest =>
    if c = '-' then (parseNatChars rest).map (fun n => -(n : Int))
    else if c = '+' then (parseNatChars rest).map (fun n => (n : Int))
    else (parseNatChars cs).map (fun n => (n : Int))

/-- Python's `int(text)`. -/
def parsePyInt (s : String) : Option Int := parseIntChars s.data

/-! ### Round-trip lemmas for integer formatting -/

theorem dval_dchar {d : Nat} (h : d < 10) : dval (dchar d) = d := by
  interval_cases d <;> decide

theorem isDigitC_dchar {d : Nat} (h : d < 10) : isDigitC (dchar d) = true := by
  interval_cases d <;> decide

theorem natFmtAux_fuel : ∀ f₁ f₂ n, n < f₁ → n < f₂ → natFmtAux f₁ n = natFmtAux f₂ n := by
  intro f₁
  induction f₁ using Nat.strong_induction_on with
  | _ f₁ ih =>
    intro f₂ n h₁ h₂
    match f₁, f₂ with
    | g₁ + 1, g₂ + 1 =>
      simp only [natFmtAux]
      split
      · rfl
      · rename_i hn
        have hd : n / 10 < n := Nat.div_lt_self (by omega) (by omega)
        rw [ih g₁ (by omega) g₂ (n / 10) (by omega) (by omega)]

theorem natFmtChars_eq (n : Nat) (h10 : 10 ≤ n) :
    natFmtChars n = natFmtChars (n / 10) ++ [dchar (n % 10)] := by
  have hd : n / 10 < n := Nat.div_lt_self (by omega) (by omega)
  simp only [natFmtChars, natFmtAux]
  rw [if_neg (by omega)]
  congr 1
  exact natFmtAux_fuel n (n / 10 + 1) (n / 10) (by omega) (by omega)

theorem natFmtChars_lt (n : Nat) (h : n < 10) : natFmtChars n = [dchar n] := by
  simp only [natFmtChars, natFmtAux]
  rw [if_pos h]

theorem valBE_append_digit (cs : List Char) (c : Char) :
    valBE (cs ++ [c]) = 10 * valBE cs + dval c := by
  simp [valBE, List.foldl_append]

theorem valBE_natFmtChars (n : Nat) : valBE (natFmtChars n) = n := by
  induction n using Nat.strong_induction_on with
  | _ n ih =>
    by_cases h : n < 10
    · rw [natFmtChars_lt n h]
      simp [valBE, dval_dchar h]
    · rw [natFmtChars_eq n (by omega), valBE_append_digit,
        ih (n / 10) (Nat.div_lt_self (by omega) (by omega)),
        dval_dchar (Nat.mod_lt _ (by omega))]
      omega

theorem natFmtChars_all_digits (n : Nat) : (natFmtChars n).all isDigitC = true := by
  induction n using Nat.strong_induction_on with
  | _ n ih =>
    by_cases h : n < 10
    · rw [natFmtChars_lt n h]
      simp [isDigitC_dchar h]
    · rw [natFmtChars_eq n (by omega)]
      simp only [List.all_append, List.all_cons, List.all_nil, Bool.and_true, Bool.and_eq_true]
      exact ⟨ih (n / 10) (Nat.div_lt_self (by omega) (by omega)),
        isDigitC_dchar (Nat.mod_lt _ (by omega))⟩

theorem natFmtChars_ne_nil (n : Nat) : natFmtChars n ≠ [] := by
  by_cases h : n < 10
  · rw [natFmtChars_lt n h]; simp
  · rw [natFmtChars_eq n (by omega)]; simp

theorem parseNatChars_natFmtChars (n : Nat) : parseNatChars (natFmtChars n) = some n := by
  simp [parseNatChars, List.isEmpty_iff, natFmtChars_ne_nil, natFmtChars_all_digits,
    valBE_natFmtChars]

theorem isDigitC_ne_minus {c : Char} (h : isDigitC c = true) : c ≠ '-' := by
  intro hc; subst hc; simp [isDigitC] at h

theorem isDigitC_ne_plus {c : Char} (h : isDigitC c = true) : c ≠ '+' := by
  intro hc; subst hc; simp [isDigitC] at h

theorem natFmtChars_head_digit (n : Nat) :
    ∃ c cs, natFmtChars n = c :: cs ∧ isDigitC c = true := by
  have hall := natFmtChars_all_digits n
  have hne := natFmtChars_ne_nil n
  match h : natFmtChars n with
  | [] => exact absurd h hne
  | c :: cs =>
    refine ⟨c, cs, rfl, ?_⟩
    rw [h] at hall
    simp only [List.all_cons, Bool.and_eq_true] at hall
    exact hall.1

theorem parseIntChars_intReprChars (n : Int) : parseIntChars (intReprChars n) = some n := by
  by_cases h : n < 0
  · have h1 : intReprChars n = '-' :: natFmtChars n.natAbs := by
      unfold intReprChars; rw [if_pos h]; rfl
    rw [h1]
    simp [parseIntChars, parseNatChars_natFmtChars, abs_of_neg h]
  · have h1 : intReprChars n = natFmtChars n.natAbs := by
      unfold intReprChars; rw [if_neg h]; rfl
    obtain ⟨c, cs, hc, hd⟩ := natFmtChars_head_digit n.natAbs
    rw [h1, hc]
    simp only [parseIntChars, if_neg (isDigitC_ne_minus hd), if_neg (isDigitC_ne_plus hd)]
    rw [← hc, parseNatChars_natFmtChars]
    simp
    omega

/-! ## Floats: exact-decimal model of Python `float` formatting and parsing

A Python float value is modelled by a pair `(m, k)` with value `m / 10 ^ k`,
kept canonical (`k = 0`, or the final fractional digit non-zero); CPython has
one representation per float value and its `repr` round-trips, which the
canonical exact-decimal pair models. -/

/-- Strip trailing zero fractional digits: the canonical representative of a
parsed decimal, as `float(...)` identifies `2.50` with `2.5`. -/
def canonFloat : Int → Nat → Int × Nat
  | m, 0 => (m, 0)
  | m, k + 1 => if m % 10 == 0 then canonFloat (m / 10) k else (m, k + 1)

/-- Is `(m, k)` the canonical representative (a value `repr` can print)? -/
def floatCanonB (m : Int) (k : Nat) : Bool := k == 0 || m % 10 != 0

/-- Digits of `|x|` as `repr` prints a float: integral floats end in `.0`,
fractional parts are zero-padded to `k` digits. -/
def floatBodyChars (a : Nat) (k : Nat) : List Char :=
  if k = 0 then natFmtChars a ++ ['.', '0']
  else natFmtChars (a / 10 ^ k) ++
    '.' :: (List.replicate (k - (natFmtChars (a % 10 ^ k)).length) '0' ++
      natFmtChars (a % 10 ^ k))

/-- Python `repr` (equally `format`) of a float, on characters. -/
def floatReprChars (m : Int) (k : Nat) : List Char :=
  (if m < 0 then ['-'] else []) ++ floatBodyChars m.natAbs k

/-- Python `repr` of the float `m / 10 ^ k`. -/
def floatRepr (m : Int) (k : Nat) : String := String.mk (floatReprChars m k)

/-- Apply the parsed sign. -/
def applySign (neg : Bool) (v : Nat) : Int := if neg then -(v : Int) else (v : Int)

/-- Parse the unsigned part of a float literal: digits, an optional point,
digits — at least one digit in total. -/
def parseFloatCore (neg : Bool) (cs : List Char) : Option (Int × Nat) :=
  let ip := cs.takeWhile isDigitC
  let r1 := cs.dropWhile isDigitC
  if r1.isEmpty then
    if ip.isEmpty then none else some (canonFloat (applySign neg (valBE ip)) 0)
  else if r1.head? = some '.' then
    let r2 := r1.tail
    let fp := r2.takeWhile isDigitC
    if (r2.dropWhile isDigitC).isEmpty then
      if ip.isEmpty && fp.isEmpty then none
      else some (canonFloat (applySign neg (valBE ip * 10 ^ fp.length + valBE fp)) fp.length)
    else none
  else none

/-- Python's `float(text)`, restricted to the plain decimal fragment the
codec emits (no exponent, `inf`/`nan`, whitespace or underscores). -/
def parseFloatChars (cs : List Char) : Option (Int × Nat) :=
  match cs with
  | [] => none
  | c :: rest =>
    if c = '-' then parseFloatCore true rest
    else if c = '+' then parseFloatCore false rest
    else parseFloatCore false cs

/-- Python's `float(text)` on strings. -/
def parsePyFloat (s : String) : Option (Int × Nat) := parseFloatChars s.data

/-! ### Round-trip lemmas for float formatting -/

theorem takeWhile_append_stop (p : Char → Bool) (l₁ : List Char) (c : Char) (t : List Char)
    (h₁ : l₁.all p = true) (h₂ : p c = false) :
    (l₁ ++ c :: t).takeWhile p = l₁ ∧ (l₁ ++ c :: t).dropWhile p = c :: t := by
  induction l₁ with
  | nil => simp [List.takeWhile_cons, List.dropWhile_cons, h₂]
  | cons a l ih =>
    simp only [List.all_cons, Bool.and_eq_true] at h₁
    have := ih h₁.2
    simp [List.takeWhile_cons, List.dropWhile_cons, h₁.1, this.1, this.2]

theorem takeWhile_all_self (p : Char → Bool) (l : List Char) (h : l.all p = true) :
    l.takeWhile p = l ∧ l.dropWhile p = [] := by
  induction l with
  | nil => simp
  | cons a l ih =>
    simp only [List.all_cons, Bool.and_eq_true] at h
    simp [List.takeWhile_cons, List.dropWhile_cons, h.1, ih h.2]

theorem foldl_zeros (pz : Nat) :
    List.foldl (fun a c => 10 * a + dval c) 0 (List.replicate pz '0') = 0 := by
  induction pz with
  | zero => rfl
  | succ n ih => simpa [List.replicate_succ, List.foldl_cons] using ih

theorem valBE_pad (pz : Nat) (cs : List Char) :
    valBE (List.replicate pz '0' ++ cs) = valBE cs := by
  simp [valBE, List.foldl_append, foldl_zeros]

theorem replicate_zero_all_digits (pz : Nat) :
    (List.replicate pz '0').all isDigitC = true := by
  have h0 : isDigitC '0' = true := by decide
  induction pz with
  | zero => rfl
  | succ n ih => simp [List.replicate_succ, List.all_cons, h0, ih]

theorem natFmtChars_length_le (k n : Nat) (h : n < 10 ^ (k + 1)) :
    (natFmtChars n).length ≤ k + 1 := by
  induction k generalizing n with
  | zero =>
    rw [natFmtChars_lt n (by simpa using h)]
    simp
  | succ k ih =>
    by_cases h10 : n < 10
    · rw [natFmtChars_lt n h10]; simp
    · rw [natFmtChars_eq n (by omega)]
      have hd : n / 10 < 10 ^ (k + 1) := by
        rw [Nat.div_lt_iff_lt_mul (by omega)]
        calc n < 10 ^ (k + 2) := h
        _ = 10 ^ (k + 1) * 10 := by ring
      simpa using ih (n / 10) hd

theorem canonFloat_id (m : Int) (k : Nat) (hc : floatCanonB m k = true) :
    canonFloat m k = (m, k) := by
  match k with
  | 0 => rfl
  | k + 1 =>
    have hme : (m % 10 == 0) = false := by
      rw [floatCanonB, Bool.or_eq_true] at hc
      rcases hc with hc | hc
      · simp at hc
      · exact beq_eq_false_iff_ne.mpr (bne_iff_ne.mp hc)
    simp [canonFloat, hme]

theorem canonFloat_mul10 (m : Int) : canonFloat (10 * m) 1 = (m, 0) := by
  have h1 : (10 * m) % 10 = 0 := Int.mul_emod_right 10 m
  have h2 : (10 * m) / 10 = m := Int.mul_ediv_cancel_left m (by norm_num)
  simp [canonFloat, h1, h2]

theorem parseFloatCore_split (neg : Bool) (ip frac : List Char)
    (hip : ip.all isDigitC = true) (hfrac : frac.all isDigitC = true)
    (hne : ip.isEmpty = false) :
    parseFloatCore neg (ip ++ '.' :: frac) =
      some (canonFloat (applySign neg (valBE ip * 10 ^ frac.length + valBE frac))
        frac.length) := by
  have h1 := takeWhile_append_stop isDigitC ip '.' frac hip (by decide)
  have h2 := takeWhile_all_self isDigitC frac hfrac
  simp only [parseFloatCore, h1.1, h1.2, h2.1, h2.2, List.isEmpty_cons, List.head?_cons,
    List.tail_cons, List.isEmpty_nil, Bool.false_eq_true, if_false, if_pos rfl, hne,
    Bool.false_and, if_true]

theorem floatBodyChars_zero (a : Nat) : floatBodyChars a 0 = natFmtChars a ++ '.' :: ['0'] := by
  simp [floatBodyChars]

theorem parseFloatCore_body0 (neg : Bool) (a : Nat) :
    parseFloatCore neg (floatBodyChars a 0) =
      some (canonFloat (applySign neg (a * 10)) 1) := by
  rw [floatBodyChars_zero]
  rw [parseFloatCore_split neg (natFmtChars a) ['0'] (natFmtChars_all_digits a) (by decide)
    (by simp [List.isEmpty_iff, natFmtChars_ne_nil])]
  have hv : valBE ['0'] = 0 := by decide
  simp [valBE_natFmtChars, hv]

theorem parseFloatCore_bodyK (neg : Bool) (a : Nat) (k : Nat) (hk : k ≠ 0) :
    parseFloatCore neg (floatBodyChars a k) = some (canonFloat (applySign neg a) k) := by
  set fr := a % 10 ^ k with hfr
  set pad := List.replicate (k - (natFmtChars fr).length) '0' ++ natFmtChars fr with hpad
  have hpadall : pad.all isDigitC = true := by
    rw [hpad]
    simp only [List.all_append, Bool.and_eq_true]
    exact ⟨replicate_zero_all_digits _, natFmtChars_all_digits _⟩
  have hlen : pad.length = k := by
    obtain ⟨j, rfl⟩ : ∃ j, k = j + 1 := ⟨k - 1, by omega⟩
    have hle : (natFmtChars fr).length ≤ j + 1 :=
      natFmtChars_length_le j fr (by rw [hfr]; exact Nat.mod_lt _ (by positivity))
    rw [hpad]
    simp only [List.length_append, List.length_replicate]
    omega
  have hbody : floatBodyChars a k = natFmtChars (a / 10 ^ k) ++ '.' :: pad := by
    rw [floatBodyChars, if_neg hk]
  rw [hbody]
  rw [parseFloatCore_split neg _ pad (natFmtChars_all_digits _) hpadall
    (by simp [List.isEmpty_iff, natFmtChars_ne_nil])]
  have hval : valBE pad = fr := by
    rw [hpad, valBE_pad, valBE_natFmtChars]
  rw [hval, hlen, valBE_natFmtChars, hfr]
  have hdm : a / 10 ^ k * 10 ^ k + a % 10 ^ k = a := Nat.div_add_mod' a (10 ^ k)
  rw [hdm]

theorem applySign_mul10 (neg : Bool) (a : Nat) :
    applySign neg (a * 10) = 10 * applySign neg a := by
  cases neg <;> simp [applySign] <;> ring

theorem floatBodyChars_head_digit (a k : Nat) :
    ∃ c cs, floatBodyChars a k = c :: cs ∧ isDigitC c = true := by
  by_cases hk : k = 0
  · subst hk
    rw [floatBodyChars_zero]
    obtain ⟨c, cs, hc, hd⟩ := natFmtChars_head_digit a
    exact ⟨c, cs ++ '.' :: ['0'], by rw [hc]; rfl, hd⟩
  · rw [floatBodyChars, if_neg hk]
    obtain ⟨c, cs, hc, hd⟩ := natFmtChars_head_digit (a / 10 ^ k)
    exact ⟨c, _, by rw [hc]; rfl, hd⟩

theorem parseFloatChars_floatReprChars (m : Int) (k : Nat) (hc : floatCanonB m k = true) :
    parseFloatChars (floatReprChars m k) = some (m, k) := by
  by_cases hm : m < 0
  · have h1 : floatReprChars m k = '-' :: floatBodyChars m.natAbs k := by
      unfold floatReprChars; rw [if_pos hm]; rfl
    have hsign : applySign true m.natAbs = m := by
      show -((m.natAbs : Nat) : Int) = m
      omega
    rw [h1]
    simp only [parseFloatChars, if_pos rfl, if_true]
    by_cases hk : k = 0
    · subst hk
      rw [parseFloatCore_body0, applySign_mul10, hsign, canonFloat_mul10]
    · rw [parseFloatCore_bodyK true m.natAbs k hk, hsign, canonFloat_id m k hc]
  · have h1 : floatReprChars m k = floatBodyChars m.natAbs k := by
      unfold floatReprChars; rw [if_neg hm]; rfl
    have hsign : applySign false m.natAbs = m := by
      show ((m.natAbs : Nat) : Int) = m
      omega
    obtain ⟨c, cs, hcc, hd⟩ := floatBodyChars_head_digit m.natAbs k
    rw [h1, hcc]
    simp only [parseFloatChars, if_neg (isDigitC_ne_minus hd), if_neg (isDigitC_ne_plus hd)]
    rw [← hcc]
    by_cases hk : k = 0
    · subst hk
      rw [parseFloatCore_body0, applySign_mul10, hsign, canonFloat_mul10]
    · rw [parseFloatCore_bodyK false m.natAbs k hk, hsign, canonFloat_id m k hc]

/-! ## Python `str.split(".")` and `".".join`, used by the reference decoder -/

/-- Python `text.split(".")` on characters: adjacent separators produce empty
pieces and the empty text yields one empty piece. -/
def splitDot : List Char → List (List Char)
  | [] => [[]]
  | c :: cs =>
    if c = '.' then [] :: splitDot cs
    else
      match splitDot cs with
      | [] => [[c]]
      | g :: gs => (c :: g) :: gs

/-- Python `".".join(pieces)` on characters. -/
def joinDots : List (List Char) → List Char
  | [] => []
  | [g] => g
  | g :: gs => g ++ '.' :: joinDots gs

theorem splitDot_ne_nil (cs : List Char) : splitDot cs ≠ [] := by
  induction cs with
  | nil => simp [splitDot]
  | cons c cs ih =>
    by_cases hc : c = '.'
    · simp [splitDot, hc]
    · simp only [splitDot, if_neg hc]
      cases h : splitDot cs with
      | nil => exact absurd h ih
      | cons g gs => simp

theorem splitDot_cons_of_ne_nil (cs : List Char) :
    ∃ g gs, splitDot cs = g :: gs := by
  cases h : splitDot cs with
  | nil => exact absurd h (splitDot_ne_nil cs)
  | cons g gs => exact ⟨g, gs, rfl⟩

theorem splitDot_no_dot (b : List Char) (hb : '.' ∉ b) : splitDot b = [b] := by
  induction b with
  | nil => rfl
  | cons c cs ih =>
    have hc : c ≠ '.' := by
      intro h
      exact hb (h ▸ List.mem_cons_self c cs)
    have hcs : '.' ∉ cs := fun h => hb (List.mem_cons_of_mem c h)
    simp only [splitDot, if_neg hc, ih hcs]

theorem splitDot_append (a b : List Char) (hb : '.' ∉ b) :
    splitDot (a ++ '.' :: b) = splitDot a ++ [b] := by
  induction a with
  | nil => simp [splitDot, splitDot_no_dot b hb]
  | cons c a' ih =>
    by_cases hc : c = '.'
    · subst hc
      simp [List.cons_append, splitDot, ih]
    · simp only [List.cons_append, splitDot, if_neg hc, List.append_eq]
      obtain ⟨g, gs, hg⟩ := splitDot_cons_of_ne_nil a'
      rw [ih, hg]
      simp

theorem joinDots_splitDot (cs : List Char) : joinDots (splitDot cs) = cs := by
  induction cs with
  | nil => rfl
  | cons c cs ih =>
    by_cases hc : c = '.'
    · subst hc
      simp only [splitDot, if_true, reduceIte]
      obtain ⟨g, gs, hg⟩ := splitDot_cons_of_ne_nil cs
      rw [hg] at ih ⊢
      simpa [joinDots] using ih
    · simp only [splitDot, if_neg hc]
      obtain ⟨g, gs, hg⟩ := splitDot_cons_of_ne_nil cs
      rw [hg] at ih ⊢
      cases gs with
      | nil => simpa [joinDots] using ih
      | cons g' gs' =>
        simp only [joinDots] at ih ⊢
        rw [← ih]
        rfl

/-! ## The Python value model -/

/-- A Python value as the codec sees it.

* `vInt` / `vFloat` are native `int` / `float` (a float is the exact decimal
  `m / 10 ^ k`); `vBool` is `bool` (a subtype of `int` in Python);
* `vNpInt` / `vNpFloat` are the fixed-width numpy scalar types
  (`np.integer` / `np.floating` instances);
* `vNdArray content` is a numpy array, modelled by the nested plain-list
  value `content` that `.tolist()` returns — the dtype and shape metadata
  are exactly what the codec discards;
* `vType mod name` is a class object with `__module__ = mod` and
  `__name__ = name`; `vFunction` and `vModule` likewise model
  `FunctionType` and `ModuleType` objects by their dotted-path data;
* `vObj r` is any other object, carrying its `repr` text `r`. -/
inductive PyVal where
  | vNone
  | vBool (b : Bool)
  | vInt (n : Int)
  | vFloat (m : Int) (k : Nat)
  | vNpInt (n : Int)
  | vNpFloat (m : Int) (k : Nat)
  | vStr (s : String)
  | vList (xs : List PyVal)
  | vTuple (xs : List PyVal)
  | vDict (entries : List (PyVal × PyVal))
  | vNdArray (content : PyVal)
  | vType (mod : String) (name : String)
  | vFunction (mod : String) (name : String)
  | vModule (name : String)
  | vObj (r : String)

/-- The single-quote character, written by code point to keep the source
free of quote-escape noise. -/
def qchar : Char := Char.ofNat 39

mutual

/-- Python `repr` (and, on containers and numbers, `str` / `format`):
numbers print their decimal text, strings are quoted,
tuples print as `(a, b)` with a trailing comma for singletons, numpy
scalars print their bare number (numpy 1.x behaviour). -/
def pyReprChars : PyVal → List Char
  | .vNone => "None".data
  | .vBool b => if b then "True".data else "False".data
  | .vInt n => intReprChars n
  | .vFloat m k => floatReprChars m k
  | .vNpInt n => intReprChars n
  | .vNpFloat m k => floatReprChars m k
  | .vStr s => qchar :: s.data ++ [qchar]
  | .vTuple xs => '(' :: pyTupleBody xs ++ [')']
  | .vList xs => '[' :: pyCommaSep xs ++ [']']
  | .vDict ps => Char.ofNat 123 :: pyPairsSep ps ++ [Char.ofNat 125]
  | .vNdArray c => "array(".data ++ pyReprChars c ++ [')']
  | .vType mod name => "<class ".data ++ qchar :: (mod.data ++ '.' :: name.data) ++ [qchar, '>']
  | .vFunction mod name => "<function ".data ++ mod.data ++ '.' :: name.data ++ ['>']
  | .vModule name => "<module ".data ++ qchar :: name.data ++ [qchar, '>']
  | .vObj r => r.data

/-- The body of a tuple `repr`: singleton tuples carry a trailing comma. -/
def pyTupleBody : List PyVal → List Char
  | [] => []
  | [x] => pyReprChars x ++ [',']
  | x :: xs => pyReprChars x ++ ',' :: ' ' :: pyCommaSep xs

/-- Comma-space separated element list, no trailing separator. -/
def pyCommaSep : List PyVal → List Char
  | [] => []
  | [x] => pyReprChars x
  | x :: xs => pyReprChars x ++ ',' :: ' ' :: pyCommaSep xs

/-- Comma-space separated `key: value` pairs of a dict `repr`. -/
def pyPairsSep : List (PyVal × PyVal) → List Char
  | [] => []
  | [(k, v)] => pyReprChars k ++ ':' :: ' ' :: pyReprChars v
  | (k, v) :: ps => pyReprChars k ++ ':' :: ' ' :: pyReprChars v ++ ',' :: ' ' :: pyPairsSep ps

end

/-- Python `repr` as a string. -/
def pyRepr (v : PyVal) : String := String.mk (pyReprChars v)

example : pyRepr (.vTuple [.vInt 1, .vInt 2, .vInt 3]) = "(1, 2, 3)" := by rfl

example : pyRepr (.vTuple [.vInt 1]) = "(1,)" := by rfl

example : pyRepr (.vTuple []) = "()" := by rfl

example : pyRepr (.vFloat 25 1) = "2.5" := by rfl

example : pyRepr (.vFloat (-3) 0) = "-3.0" := by rfl

example : pyRepr (.vFloat 5 2) = "0.05" := by rfl

/-! ## Tag-prefix matching (`str.startswith`) and the tuple-literal parser
(`ast.literal_eval` on the fragment the encoder emits) -/

/-- Strip a literal prefix: `some rest` when `cs = pre ++ rest`. -/
def stripPre : List Char → List Char → Option (List Char)
  | [], cs => some cs
  | _ :: _, [] => none
  | p :: ps, c :: cs => if c = p then stripPre ps cs else none

/-- Python `text.startswith(pre)`. -/
def hasPre (pre : String) (cs : List Char) : Bool := (stripPre pre.data cs).isSome

theorem stripPre_append (p r : List Char) : stripPre p (p ++ r) = some r := by
  induction p with
  | nil => rfl
  | cons c ps ih => simp [stripPre, ih]

/-- Parse one signed number literal (maximal munch): digits, optionally a
point and further digits.  Returns the value and the unconsumed rest.
Forms the printer never emits (`.5`, `5.`, exponents) are not modelled. -/
def parseNumCore (neg : Bool) (cs' : List Char) : Option (PyVal × List Char) :=
  let ip := cs'.takeWhile isDigitC
  let r1 := cs'.dropWhile isDigitC
  if ip.isEmpty then none
  else if r1.head? = some '.' then
    let r2 := r1.tail
    let fp := r2.takeWhile isDigitC
    let r3 := r2.dropWhile isDigitC
    if fp.isEmpty then none
    else
      let c2 := canonFloat (applySign neg (valBE ip * 10 ^ fp.length + valBE fp)) fp.length
      some (.vFloat c2.1 c2.2, r3)
  else some (.vInt (applySign neg (valBE ip)), r1)

/-- Dispatch the optional leading minus sign of a number literal. -/
def parseNumChars (cs : List Char) : Option (PyVal × List Char) :=
  match cs with
  | [] => none
  | c :: rest =>
    if c = '-' then parseNumCore true rest else parseNumCore false (c :: rest)

/-- Parse one scalar constant of a literal tuple: a quoted string, `True`,
`False`, `None`, or a number. -/
def parseScalarChars (cs : List Char) : Option (PyVal × List Char) :=
  match cs with
  | [] => none
  | c :: rest =>
    if c = qchar then
      let content := rest.takeWhile (fun d => !(d == qchar))
      let r1 := rest.dropWhile (fun d => !(d == qchar))
      if r1.head? = some qchar then some (.vStr (String.mk content), r1.tail) else none
    else if c = 'T' then (stripPre "rue".data rest).map (fun r => (.vBool true, r))
    else if c = 'F' then (stripPre "alse".data rest).map (fun r => (.vBool false, r))
    else if c = 'N' then (stripPre "one".data rest).map (fun r => (.vNone, r))
    else parseNumChars cs

/-- Parse a comma-space separated element list, allowing one trailing
comma (the singleton-tuple form); `fuel` bounds the recursion. -/
def parseElemsAux : Nat → List Char → Option (List PyVal)
  | 0, _ => none
  | fuel + 1, cs =>
    match parseScalarChars cs with
    | none => none
    | some (v, rest) =>
      match rest with
      | [] => some [v]
      | [','] => some [v]
      | ',' :: ' ' :: rest' => (parseElemsAux fuel rest').map (v :: ·)
      | _ => none

/-- `tuple(ast.literal_eval(text))` restricted to the parenthesised
scalar-tuple literals the `format` call produces for tuples. -/
def parseTupleLitChars (cs : List Char) : Option (List PyVal) :=
  match cs with
  | '(' :: rest =>
    match rest.getLast? with
    | some ')' =>
      let body := rest.dropLast
      if body.isEmpty then some [] else parseElemsAux (body.length + 1) body
    | _ => none
  | _ => none

/-- Is `s` a string whose Python `repr` is just the quoted text: printable
ASCII with no quote or backslash to escape? -/
def simpleStrB (s : String) : Bool :=
  s.data.all (fun c => !(c == qchar) && !(c == '\\') && 32 ≤ c.toNat && c.toNat ≤ 126)

/-- The plain scalars of the specification: native `int`, canonical native
`float`, `bool`, `None`, and escape-free strings. -/
def plainScalarB : PyVal → Bool
  | .vNone => true
  | .vBool _ => true
  | .vInt _ => true
  | .vFloat m k => floatCanonB m k
  | .vStr s => simpleStrB s
  | _ => false

example : parseTupleLitChars "(1, 2, 3)".data = some [.vInt 1, .vInt 2, .vInt 3] := by rfl

example : parseTupleLitChars "(1,)".data = some [.vInt 1] := by rfl

example : parseTupleLitChars "()".data = some [] := by rfl

example : parseTupleLitChars "(-2.5, True)".data = some [.vFloat (-25) 1, .vBool true] := by rfl

example : parseTupleLitChars (pyReprChars (.vTuple [.vStr "a, b", .vNone])) =
    some [.vStr "a, b", .vNone] := by rfl

/-! ### Round-trip lemmas: parsing back what the printer emitted -/

theorem strEta (s : String) : String.mk s.data = s := by
  cases s
  rfl

theorem isDigitC_ne_special (c : Char) (hd : isDigitC c = true) :
    c ≠ qchar ∧ c ≠ 'T' ∧ c ≠ 'F' ∧ c ≠ 'N' :=
  ⟨fun h => absurd (h ▸ hd) (by decide), fun h => absurd (h ▸ hd) (by decide),
    fun h => absurd (h ▸ hd) (by decide), fun h => absurd (h ▸ hd) (by decide)⟩

theorem digits_split (l rest : List Char) (hl : l.all isDigitC = true)
    (hrest : rest = [] ∨ rest.head? = some ',') :
    (l ++ rest).takeWhile isDigitC = l ∧ (l ++ rest).dropWhile isDigitC = rest := by
  rcases hrest with rfl | hr
  · simpa using takeWhile_all_self isDigitC l hl
  · cases rest with
    | nil => simp at hr
    | cons a r =>
      have ha : a = ',' := by simpa using hr
      subst ha
      exact takeWhile_append_stop isDigitC l ',' r hl (by decide)

theorem rest_head_ne_dot (rest : List Char) (hrest : rest = [] ∨ rest.head? = some ',') :
    ¬rest.head? = some '.' := by
  rcases hrest with rfl | hr
  · simp
  · rw [hr]
    simp

theorem parseNumCore_digits (neg : Bool) (l rest : List Char) (hl : l.all isDigitC = true)
    (hne : l.isEmpty = false) (hrest : rest = [] ∨ rest.head? = some ',') :
    parseNumCore neg (l ++ rest) = some (.vInt (applySign neg (valBE l)), rest) := by
  have hsplit := digits_split l rest hl hrest
  simp only [parseNumCore, hsplit.1, hsplit.2, hne, Bool.false_eq_true, if_false,
    if_neg (rest_head_ne_dot rest hrest)]

theorem parseNumCore_split (neg : Bool) (ip frac rest : List Char)
    (hip : ip.all isDigitC = true) (hfrac : frac.all isDigitC = true)
    (hipne : ip.isEmpty = false) (hfrne : frac.isEmpty = false)
    (hrest : rest = [] ∨ rest.head? = some ',') :
    parseNumCore neg (ip ++ '.' :: (frac ++ rest)) =
      some (.vFloat (canonFloat (applySign neg (valBE ip * 10 ^ frac.length + valBE frac))
          frac.length).1
        (canonFloat (applySign neg (valBE ip * 10 ^ frac.length + valBE frac)) frac.length).2,
        rest) := by
  have h1 := takeWhile_append_stop isDigitC ip '.' (frac ++ rest) hip (by decide)
  have h2 := digits_split frac rest hfrac hrest
  have hfe : frac.isEmpty = false := hfrne
  simp only [parseNumCore, h1.1, h1.2, h2.1, h2.2, List.head?_cons, List.tail_cons,
    hipne, Bool.false_eq_true, if_false, if_pos rfl, if_true, hfe]

theorem parseNumChars_intRepr (n : Int) (rest : List Char)
    (hrest : rest = [] ∨ rest.head? = some ',') :
    parseNumChars (intReprChars n ++ rest) = some (.vInt n, rest) := by
  by_cases hm : n < 0
  · have h1 : intReprChars n ++ rest = '-' :: (natFmtChars n.natAbs ++ rest) := by
      unfold intReprChars
      rw [if_pos hm]
      simp
    rw [h1]
    simp only [parseNumChars, if_pos rfl, if_true]
    rw [parseNumCore_digits true _ rest (natFmtChars_all_digits _)
      (by simp [List.isEmpty_iff, natFmtChars_ne_nil]) hrest, valBE_natFmtChars]
    have : applySign true n.natAbs = n := by
      show -((n.natAbs : Nat) : Int) = n
      omega
    rw [this]
  · have h1 : intReprChars n ++ rest = natFmtChars n.natAbs ++ rest := by
      unfold intReprChars
      rw [if_neg hm]
      simp
    obtain ⟨c, cs, hc, hd⟩ := natFmtChars_head_digit n.natAbs
    rw [h1, hc]
    simp only [List.cons_append, parseNumChars, if_neg (isDigitC_ne_minus hd)]
    rw [← List.cons_append, ← hc]
    rw [parseNumCore_digits false _ rest (natFmtChars_all_digits _)
      (by simp [List.isEmpty_iff, natFmtChars_ne_nil]) hrest, valBE_natFmtChars]
    have : applySign false n.natAbs = n := by
      show ((n.natAbs : Nat) : Int) = n
      omega
    rw [this]

theorem floatBodyChars_split (a k : Nat) :
    ∃ ip frac, floatBodyChars a k = ip ++ '.' :: frac ∧
      ip.all isDigitC = true ∧ frac.all isDigitC = true ∧
      ip.isEmpty = false ∧ frac.isEmpty = false ∧
      valBE ip * 10 ^ frac.length + valBE frac = a * 10 ^ (max k 1 - k) ∧
      frac.length = max k 1 := by
  by_cases hk : k = 0
  · subst hk
    refine ⟨natFmtChars a, ['0'], by rw [floatBodyChars_zero], natFmtChars_all_digits a,
      by decide, by simp [List.isEmpty_iff, natFmtChars_ne_nil], by decide, ?_, rfl⟩
    have hv : valBE ['0'] = 0 := by decide
    simp [valBE_natFmtChars, hv]
  · set fr := a % 10 ^ k with hfr
    set pad := List.replicate (k - (natFmtChars fr).length) '0' ++ natFmtChars fr with hpad
    have hpadall : pad.all isDigitC = true := by
      rw [hpad]
      simp only [List.all_append, Bool.and_eq_true]
      exact ⟨replicate_zero_all_digits _, natFmtChars_all_digits _⟩
    have hlen : pad.length = k := by
      obtain ⟨j, rfl⟩ : ∃ j, k = j + 1 := ⟨k - 1, by omega⟩
      have hle : (natFmtChars fr).length ≤ j + 1 :=
        natFmtChars_length_le j fr (by rw [hfr]; exact Nat.mod_lt _ (by positivity))
      rw [hpad]
      simp only [List.length_append, List.length_replicate]
      omega
    have hpne : pad.isEmpty = false := by
      rw [hpad]
      cases h : natFmtChars fr with
      | nil => exact absurd h (natFmtChars_ne_nil fr)
      | cons c cs => simp
    refine ⟨natFmtChars (a / 10 ^ k), pad, by rw [floatBodyChars, if_neg hk],
      natFmtChars_all_digits _, hpadall,
      by simp [List.isEmpty_iff, natFmtChars_ne_nil], hpne, ?_, by rw [hlen]; omega⟩
    have hval : valBE pad = fr := by
      rw [hpad, valBE_pad, valBE_natFmtChars]
    rw [hval, hlen, valBE_natFmtChars, hfr]
    have hdm : a / 10 ^ k * 10 ^ k + a % 10 ^ k = a := Nat.div_add_mod' a (10 ^ k)
    rw [hdm]
    have : max k 1 - k = 0 := by omega
    rw [this]
    simp

theorem canonFloat_applySign_pow (m : Int) (k : Nat) (hc : floatCanonB m k = true)
    (neg : Bool) (hsign : applySign neg m.natAbs = m) :
    canonFloat (applySign neg (m.natAbs * 10 ^ (max k 1 - k))) (max k 1) = (m, k) := by
  by_cases hk : k = 0
  · subst hk
    have h1 : max 0 1 - 0 = 1 := rfl
    have h2 : max 0 1 = 1 := rfl
    rw [h1, h2, pow_one, applySign_mul10, hsign, canonFloat_mul10]
  · have h1 : max k 1 - k = 0 := by omega
    have h2 : max k 1 = k := by omega
    rw [h1, h2, pow_zero, Nat.mul_one, hsign, canonFloat_id m k hc]

theorem parseNumChars_floatRepr (m : Int) (k : Nat) (hc : floatCanonB m k = true)
    (rest : List Char) (hrest : rest = [] ∨ rest.head? = some ',') :
    parseNumChars (floatReprChars m k ++ rest) = some (.vFloat m k, rest) := by
  obtain ⟨ip, frac, hbody, hip, hfrac, hipne, hfrne, hval, hlen⟩ :=
    floatBodyChars_split m.natAbs k
  have hcore : ∀ neg, parseNumCore neg (floatBodyChars m.natAbs k ++ rest) =
      some (.vFloat (canonFloat (applySign neg (m.natAbs * 10 ^ (max k 1 - k))) (max k 1)).1
        (canonFloat (applySign neg (m.natAbs * 10 ^ (max k 1 - k))) (max k 1)).2, rest) := by
    intro neg
    rw [hbody, List.append_assoc, List.cons_append,
      parseNumCore_split neg ip frac rest hip hfrac hipne hfrne hrest, hval, hlen]
  by_cases hm : m < 0
  · have h1 : floatReprChars m k ++ rest = '-' :: (floatBodyChars m.natAbs k ++ rest) := by
      unfold floatReprChars
      rw [if_pos hm]
      simp
    have hsign : applySign true m.natAbs = m := by
      show -((m.natAbs : Nat) : Int) = m
      omega
    rw [h1]
    simp only [parseNumChars, if_pos rfl, if_true]
    rw [hcore true, canonFloat_applySign_pow m k hc true hsign]
  · have h1 : floatReprChars m k ++ rest = floatBodyChars m.natAbs k ++ rest := by
      unfold floatReprChars
      rw [if_neg hm]
      simp
    have hsign : applySign false m.natAbs = m := by
      show ((m.natAbs : Nat) : Int) = m
      omega
    obtain ⟨c, cs, hcc, hd⟩ := floatBodyChars_head_digit m.natAbs k
    rw [h1, hcc]
    simp only [List.cons_append, parseNumChars, if_neg (isDigitC_ne_minus hd)]
    rw [← List.cons_append, ← hcc, hcore false,
      canonFloat_applySign_pow m k hc false hsign]

theorem intReprChars_head (n : Int) :
    ∃ c cs', intReprChars n = c :: cs' ∧ (c = '-' ∨ isDigitC c = true) := by
  by_cases h : n < 0
  · exact ⟨'-', natFmtChars n.natAbs, by unfold intReprChars; rw [if_pos h]; rfl, Or.inl rfl⟩
  · obtain ⟨c, cs, hc, hd⟩ := natFmtChars_head_digit n.natAbs
    exact ⟨c, cs, by unfold intReprChars; rw [if_neg h]; simpa using hc, Or.inr hd⟩

theorem floatReprChars_head (m : Int) (k : Nat) :
    ∃ c cs', floatReprChars m k = c :: cs' ∧ (c = '-' ∨ isDigitC c = true) := by
  by_cases h : m < 0
  · exact ⟨'-', floatBodyChars m.natAbs k, by unfold floatReprChars; rw [if_pos h]; rfl,
      Or.inl rfl⟩
  · obtain ⟨c, cs, hc, hd⟩ := floatBodyChars_head_digit m.natAbs k
    exact ⟨c, cs, by unfold floatReprChars; rw [if_neg h]; simpa using hc, Or.inr hd⟩

theorem numHead_ne_special (c : Char) (hd : c = '-' ∨ isDigitC c = true) :
    c ≠ qchar ∧ c ≠ 'T' ∧ c ≠ 'F' ∧ c ≠ 'N' := by
  rcases hd with rfl | hd
  · exact ⟨by decide, by decide, by decide, by decide⟩
  · exact isDigitC_ne_special c hd

theorem simpleStrB_no_quote (s : String) (h : simpleStrB s = true) :
    s.data.all (fun d => !(d == qchar)) = true := by
  rw [simpleStrB, List.all_eq_true] at h
  rw [List.all_eq_true]
  intro c hc
  have := h c hc
  simp only [Bool.and_eq_true] at this
  exact this.1.1.1

theorem parseScalar_repr (x : PyVal) (hx : plainScalarB x = true) (rest : List Char)
    (hrest : rest = [] ∨ rest.head? = some ',') :
    parseScalarChars (pyReprChars x ++ rest) = some (x, rest) := by
  cases x with
  | vNone =>
    have h1 : pyReprChars .vNone ++ rest = 'N' :: ("one".data ++ rest) := rfl
    rw [h1]
    simp only [parseScalarChars, if_neg (by decide : ¬('N' : Char) = qchar),
      if_neg (by decide : ¬('N' : Char) = 'T'), if_neg (by decide : ¬('N' : Char) = 'F'),
      if_pos rfl, if_true, stripPre_append, Option.map_some]
    rfl
  | vBool b =>
    cases b with
    | true =>
      have h1 : pyReprChars (.vBool true) ++ rest = 'T' :: ("rue".data ++ rest) := rfl
      rw [h1]
      simp only [parseScalarChars, if_neg (by decide : ¬('T' : Char) = qchar),
        if_pos rfl, if_true, stripPre_append, Option.map_some]
      rfl
    | false =>
      have h1 : pyReprChars (.vBool false) ++ rest = 'F' :: ("alse".data ++ rest) := rfl
      rw [h1]
      simp only [parseScalarChars, if_neg (by decide : ¬('F' : Char) = qchar),
        if_neg (by decide : ¬('F' : Char) = 'T'), if_pos rfl, if_true,
        stripPre_append, Option.map_some]
      rfl
  | vInt n =>
    obtain ⟨c, cs', hc, hd⟩ := intReprChars_head n
    have hne := numHead_ne_special c hd
    have h1 : pyReprChars (.vInt n) ++ rest = c :: (cs' ++ rest) := by
      show intReprChars n ++ rest = c :: (cs' ++ rest)
      rw [hc]
      rfl
    rw [h1]
    simp only [parseScalarChars, if_neg hne.1, if_neg hne.2.1, if_neg hne.2.2.1,
      if_neg hne.2.2.2]
    rw [← List.cons_append, ← hc]
    exact parseNumChars_intRepr n rest hrest
  | vFloat m k =>
    obtain ⟨c, cs', hc, hd⟩ := floatReprChars_head m k
    have hne := numHead_ne_special c hd
    have h1 : pyReprChars (.vFloat m k) ++ rest = c :: (cs' ++ rest) := by
      show floatReprChars m k ++ rest = c :: (cs' ++ rest)
      rw [hc]
      rfl
    rw [h1]
    simp only [parseScalarChars, if_neg hne.1, if_neg hne.2.1, if_neg hne.2.2.1,
      if_neg hne.2.2.2]
    rw [← List.cons_append, ← hc]
    exact parseNumChars_floatRepr m k (by simpa [plainScalarB] using hx) rest hrest
  | vStr s =>
    have hsplit := takeWhile_append_stop (fun d => !(d == qchar)) s.data qchar rest
      (simpleStrB_no_quote s (by simpa [plainScalarB] using hx)) (by simp)
    have h1 : pyReprChars (.vStr s) ++ rest = qchar :: (s.data ++ qchar :: rest) := by
      show (qchar :: s.data ++ [qchar]) ++ rest = _
      simp
    rw [h1]
    simp only [parseScalarChars, if_pos rfl, if_true, hsplit.1, hsplit.2, List.head?_cons,
      List.tail_cons, strEta]
  | vNpInt n => simp [plainScalarB] at hx
  | vNpFloat m k => simp [plainScalarB] at hx
  | vList xs => simp [plainScalarB] at hx
  | vTuple xs => simp [plainScalarB] at hx
  | vDict ps => simp [plainScalarB] at hx
  | vNdArray c => simp [plainScalarB] at hx
  | vType a b => simp [plainScalarB] at hx
  | vFunction a b => simp [plainScalarB] at hx
  | vModule a => simp [plainScalarB] at hx
  | vObj r => simp [plainScalarB] at hx

theorem parseElemsAux_commaSep :
    ∀ (xs : List PyVal) (fuel : Nat), xs ≠ [] → xs.all plainScalarB = true →
      (pyCommaSep xs).length < fuel → parseElemsAux fuel (pyCommaSep xs) = some xs := by
  intro xs
  induction xs with
  | nil => intro fuel h; exact absurd rfl h
  | cons x xs ih =>
    intro fuel _ hall hfuel
    rw [List.all_cons, Bool.and_eq_true] at hall
    obtain ⟨f, rfl⟩ : ∃ f, fuel = f + 1 := ⟨fuel - 1, by omega⟩
    cases xs with
    | nil =>
      have hbody : pyCommaSep [x] = pyReprChars x := by
        rw [pyCommaSep]
      rw [hbody] at hfuel ⊢
      have hps : parseScalarChars (pyReprChars x) = some (x, []) := by
        have := parseScalar_repr x hall.1 [] (Or.inl rfl)
        simpa using this
      simp only [parseElemsAux, hps]
    | cons y ys =>
      have hbody : pyCommaSep (x :: y :: ys) =
          pyReprChars x ++ ',' :: ' ' :: pyCommaSep (y :: ys) := by
        rw [pyCommaSep]
        exact fun h => List.noConfusion h
      rw [hbody] at hfuel ⊢
      have hps := parseScalar_repr x hall.1 (',' :: ' ' :: pyCommaSep (y :: ys))
        (Or.inr rfl)
      simp only [parseElemsAux, hps]
      have hrec : parseElemsAux f (pyCommaSep (y :: ys)) = some (y :: ys) := by
        apply ih f (List.cons_ne_nil y ys) hall.2
        rw [List.length_append] at hfuel
        simp only [List.length_cons] at hfuel ⊢
        omega
      rw [hrec]
      rfl

theorem parseTupleLit_reprTuple (xs : List PyVal) (hall : xs.all plainScalarB = true) :
    parseTupleLitChars (pyReprChars (.vTuple xs)) = some xs := by
  rcases xs with _ | ⟨x, _ | ⟨y, ys⟩⟩
  · rfl
  · rw [List.all_cons, Bool.and_eq_true] at hall
    have h1 : pyReprChars (.vTuple [x]) = '(' :: ((pyReprChars x ++ [',']) ++ [')']) := by
      show '(' :: pyTupleBody [x] ++ [')'] = _
      rw [pyTupleBody]
      simp
    rw [h1]
    simp only [parseTupleLitChars, List.getLast?_concat, List.dropLast_concat]
    have hne : (pyReprChars x ++ [',']).isEmpty = false := by
      cases h : pyReprChars x ++ [','] with
      | nil => simp at h
      | cons c cs => simp
    rw [if_neg (by simp [hne])]
    obtain ⟨f, hf⟩ : ∃ f, (pyReprChars x ++ [',']).length + 1 = f + 1 := ⟨_, rfl⟩
    rw [hf]
    have hps := parseScalar_repr x hall.1 [','] (Or.inr rfl)
    simp only [parseElemsAux, hps]
  · rw [List.all_cons, Bool.and_eq_true] at hall
    have h1 : pyReprChars (.vTuple (x :: y :: ys)) =
        '(' :: ((pyReprChars x ++ ',' :: ' ' :: pyCommaSep (y :: ys)) ++ [')']) := by
      show '(' :: pyTupleBody (x :: y :: ys) ++ [')'] = _
      rw [pyTupleBody]
      · simp
      · exact fun h => List.noConfusion h
    rw [h1]
    simp only [parseTupleLitChars, List.getLast?_concat, List.dropLast_concat]
    have hne : (pyReprChars x ++ ',' :: ' ' :: pyCommaSep (y :: ys)).isEmpty = false := by
      cases h : pyReprChars x ++ ',' :: ' ' :: pyCommaSep (y :: ys) with
      | nil => simp at h
      | cons c cs => simp
    rw [if_neg (by simp [hne])]
    obtain ⟨f, hf⟩ : ∃ f,
        (pyReprChars x ++ ',' :: ' ' :: pyCommaSep (y :: ys)).length + 1 = f + 1 := ⟨_, rfl⟩
    rw [hf]
    have hps := parseScalar_repr x hall.1 (',' :: ' ' :: pyCommaSep (y :: ys)) (Or.inr rfl)
    simp only [parseElemsAux, hps]
    have hrec : parseElemsAux f (pyCommaSep (y :: ys)) = some (y :: ys) := by
      apply parseElemsAux_commaSep (y :: ys) f (List.cons_ne_nil y ys) hall.2
      have hlen2 : (pyReprChars x ++ ',' :: ' ' :: pyCommaSep (y :: ys)).length =
          (pyReprChars x).length + 2 + (pyCommaSep (y :: ys)).length := by
        simp [List.length_append]
        omega
      omega
    rw [hrec]
    rfl

/-! ## The encoder hierarchy (`json_utils.py`)

Exceptions are modelled by `Except`; `warnings.warn` calls are collected in
a list alongside the result.  The `torch.dtype` branch of
`ModuleMultiTypeEncoder._encode` is not modelled: without torch installed
the module defines `torch.dtype = None`, and `type(obj) == None` holds for
no object, so the branch is dead. -/

/-- A raised Python exception, as far as the codec distinguishes them. -/
inductive PyErr where
  | valueError (payload : String)
  | typeError (msg : String)

/-- `MultiTypeEncoder._encode`: tag tuples and numpy scalars, flatten numpy
arrays with `.tolist()`, pass everything else through unchanged.  The
`Except` type mirrors that the subclass calls this under `try`; no branch
of the source can raise for a value of `PyVal`. -/
def multiEncodeLeaf : PyVal → Except PyErr PyVal
  | .vTuple xs => .ok (.vStr ("__tuple__(" ++ pyRepr (.vTuple xs) ++ ")"))
  | .vNpInt n => .ok (.vStr ("__int__(" ++ intRepr n ++ ")"))
  | .vNpFloat m k => .ok (.vStr ("__float__(" ++ floatRepr m k ++ ")"))
  | .vNdArray c => .ok c
  | v => .ok v

/-- `ModuleMultiTypeEncoder._encode(obj, strict=False)`: tag types,
functions and modules by dotted path, else defer to the inherited encoder;
if that raised, either re-raise (`strict`) or warn and fall back to
`repr(obj)`. -/
def moduleEncodeLeaf (strict : Bool) (v : PyVal) : Except PyErr (PyVal × List String) :=
  match v with
  | .vType mod name => .ok (.vStr ("__type__(" ++ mod ++ "." ++ name ++ ")"), [])
  | .vFunction mod name => .ok (.vStr ("__function__(" ++ mod ++ "." ++ name ++ ")"), [])
  | .vModule name => .ok (.vStr ("__module__(" ++ name ++ ")"), [])
  | v =>
    match multiEncodeLeaf v with
    | .ok v' => .ok (v', [])
    | .error e =>
      if strict then .error e
      else .ok (.vStr (pyRepr v), ["Could not pickle object"])

/-- `MultiTypeEncoder._encode_key`: native `int` keys (including `bool`,
a subtype of `int`) and `float` keys are tag-encoded to strings; any other
key goes through `self._encode`, which dynamically dispatches to
`ModuleMultiTypeEncoder._encode` with `strict` left at its default. -/
def moduleEncodeKey : PyVal → Except PyErr (PyVal × List String)
  | .vBool b => .ok (.vStr ("__int__(" ++ (if b then "True" else "False") ++ ")"), [])
  | .vInt n => .ok (.vStr ("__int__(" ++ intRepr n ++ ")"), [])
  | .vFloat m k => .ok (.vStr ("__float__(" ++ floatRepr m k ++ ")"), [])
  | v => moduleEncodeLeaf false v

mutual

/-- `CustomJSONEncoder._encode_switch` with the `ModuleMultiTypeEncoder`
leaf methods: recurse through lists and dict values, encode dict keys with
`_encode_key`, hand every other value to `_encode` (with `strict` at its
default — no caller in the source ever forwards `strict`). -/
def encodeSwitch : PyVal → Except PyErr (PyVal × List String)
  | .vList xs =>
    match encodeList xs with
    | .error e => .error e
    | .ok (ys, w) => .ok (.vList ys, w)
  | .vDict ps =>
    match encodeDict ps with
    | .error e => .error e
    | .ok (qs, w) => .ok (.vDict qs, w)
  | v => moduleEncodeLeaf false v

def encodeList : List PyVal → Except PyErr (List PyVal × List String)
  | [] => .ok ([], [])
  | x :: xs =>
    match encodeSwitch x with
    | .error e => .error e
    | .ok (y, w1) =>
      match encodeList xs with
      | .error e => .error e
      | .ok (ys, w2) => .ok (y :: ys, w1 ++ w2)

def encodeDict : List (PyVal × PyVal) → Except PyErr (List (PyVal × PyVal) × List String)
  | [] => .ok ([], [])
  | (k, v) :: ps =>
    match moduleEncodeKey k with
    | .error e => .error e
    | .ok (ek, w1) =>
      match encodeSwitch v with
      | .error e => .error e
      | .ok (ev, w2) =>
        match encodeDict ps with
        | .error e => .error e
        | .ok (eps, w3) => .ok ((ek, ev) :: eps, w1 ++ w2 ++ w3)

end

mutual

/-- Values on which `json.dumps` followed by `json.loads` is the identity:
`null`, booleans, numbers, strings, arrays of such, objects with string
keys.  This is the invariant the walker establishes before serialization. -/
def jsonStable : PyVal → Bool
  | .vNone => true
  | .vBool _ => true
  | .vInt _ => true
  | .vFloat _ _ => true
  | .vStr _ => true
  | .vList xs => jsonStableList xs
  | .vDict ps => jsonStableDict ps
  | _ => false

def jsonStableList : List PyVal → Bool
  | [] => true
  | x :: xs => jsonStable x && jsonStableList xs

def jsonStableDict : List (PyVal × PyVal) → Bool
  | [] => true
  | (k, v) :: ps =>
    (match k with | .vStr _ => true | _ => false) && jsonStable v && jsonStableDict ps

end

mutual

/-- Values `json.dumps` accepts without raising `TypeError`: tuples
serialize as arrays, and non-string scalar dict keys are coerced to
strings; numpy scalars, arrays and arbitrary objects raise. -/
def jsonSerializable : PyVal → Bool
  | .vNone => true
  | .vBool _ => true
  | .vInt _ => true
  | .vFloat _ _ => true
  | .vStr _ => true
  | .vList xs => jsonSerializableList xs
  | .vTuple xs => jsonSerializableList xs
  | .vDict ps => jsonSerializableDict ps
  | _ => false

def jsonSerializableList : List PyVal → Bool
  | [] => true
  | x :: xs => jsonSerializable x && jsonSerializableList xs

def jsonSerializableDict : List (PyVal × PyVal) → Bool
  | [] => true
  | (k, v) :: ps =>
    (match k with
      | .vStr _ => true | .vInt _ => true | .vFloat _ _ => true
      | .vBool _ => true | .vNone => true | _ => false) &&
    jsonSerializable v && jsonSerializableDict ps

end

/-- `CustomJSONEncoder.encode`: run the switch, then serialize with the
base `json.JSONEncoder`, which raises `TypeError` on anything it cannot
represent.  The emitted text is not modelled; the result is the JSON value
tree the text denotes. -/
def encodeFull (v : PyVal) : Except PyErr (PyVal × List String) :=
  match encodeSwitch v with
  | .error e => .error e
  | .ok (v', w) =>
    if jsonSerializable v' then .ok (v', w)
    else .error (.typeError "Object is not JSON serializable")

/-! ## The decoder hierarchy -/

/-- The host interpreter's import machinery, injected as a symbol
resolver: `importAttr m n` models `getattr(importlib.import_module(m), n)`
and `importMod p` models `importlib.import_module(p)`, `none` meaning the
lookup raises. -/
structure PyEnv where
  importAttr : String → String → Option PyVal
  importMod : String → Option PyVal

/-- An interpreter in which no dotted path resolves. -/
def emptyEnv : PyEnv := ⟨fun _ _ => none, fun _ => none⟩

/-- Python slicing `text[a:-1]` (by code points). -/
def pySlice (a : Nat) (s : String) : String := String.mk ((s.data.drop a).dropLast)

/-- `MultiTypeDecoder._decode`: strip `__int__(` / `__float__(` /
`__tuple__(` tags from strings, parsing the payload with `int`, `float`
and `tuple(ast.literal_eval(...))`; a payload those constructors reject
raises `ValueError`.  Non-matching strings and non-strings pass through. -/
def multiDecodeLeaf : PyVal → Except PyErr PyVal
  | .vStr s =>
    if hasPre "__int__" s.data then
      match parsePyInt (pySlice 8 s) with
      | some n => .ok (.vInt n)
      | none => .error (.valueError (pySlice 8 s))
    else if hasPre "__float__" s.data then
      match parsePyFloat (pySlice 10 s) with
      | some mk => .ok (.vFloat mk.1 mk.2)
      | none => .error (.valueError (pySlice 10 s))
    else if hasPre "__tuple__" s.data then
      match parseTupleLitChars (pySlice 10 s).data with
      | some xs => .ok (.vTuple xs)
      | none => .error (.valueError (pySlice 10 s))
    else .ok (.vStr s)
  | v => .ok v

/-- `ModuleMultiTypeDecoder._decode`: resolve `__type__(P)` and
`__function__(P)` by splitting `P` at its last dot into module path and
attribute and importing; resolve `__module__(P)` by importing `P`.  On
any failure, warn `"Could not load P"` and return the raw path string `P`
instead of raising.  Everything else defers to the inherited decoder. -/
def moduleDecodeLeaf (env : PyEnv) (v : PyVal) : Except PyErr (PyVal × List String) :=
  match v with
  | .vStr s =>
    if hasPre "__type__" s.data then
      let p := pySlice 9 s
      let parts := splitDot p.data
      let mod := String.mk (joinDots parts.dropLast)
      let name := String.mk (parts.getLastD [])
      match env.importAttr mod name with
      | some obj => .ok (obj, [])
      | none => .ok (.vStr p, ["Could not load " ++ p])
    else if hasPre "__function__" s.data then
      let p := pySlice 13 s
      let parts := splitDot p.data
      let mod := String.mk (joinDots parts.dropLast)
      let name := String.mk (parts.getLastD [])
      match env.importAttr mod name with
      | some obj => .ok (obj, [])
      | none => .ok (.vStr p, ["Could not load " ++ p])
    else if hasPre "__module__" s.data then
      let p := pySlice 11 s
      match env.importMod p with
      | some obj => .ok (obj, [])
      | none => .ok (.vStr p, ["Could not load " ++ p])
    else
      match multiDecodeLeaf (.vStr s) with
      | .ok v' => .ok (v', [])
      | .error e => .error e
  | v =>
    match multiDecodeLeaf v with
    | .ok v' => .ok (v', [])
    | .error e => .error e

mutual

/-- `CustomJSONDecoder._decode_switch` with the `ModuleMultiTypeDecoder`
leaf method: recurse through lists and dict values; dict keys go through
`_decode_key`, which the source defines as `self._decode`. -/
def decodeSwitch (env : PyEnv) : PyVal → Except PyErr (PyVal × List String)
  | .vList xs =>
    match decodeList env xs with
    | .error e => .error e
    | .ok (ys, w) => .ok (.vList ys, w)
  | .vDict ps =>
    match decodeDict env ps with
    | .error e => .error e
    | .ok (qs, w) => .ok (.vDict qs, w)
  | v => moduleDecodeLeaf env v

def decodeList (env : PyEnv) : List PyVal → Except PyErr (List PyVal × List String)
  | [] => .ok ([], [])
  | x :: xs =>
    match decodeSwitch env x with
    | .error e => .error e
    | .ok (y, w1) =>
      match decodeList env xs with
      | .error e => .error e
      | .ok (ys, w2) => .ok (y :: ys, w1 ++ w2)

def decodeDict (env : PyEnv) : List (PyVal × PyVal) → Except PyErr (List (PyVal × PyVal) × List String)
  | [] => .ok ([], [])
  | (k, v) :: ps =>
    match moduleDecodeLeaf env k with
    | .error e => .error e
    | .ok (dk, w1) =>
      match decodeSwitch env v with
      | .error e => .error e
      | .ok (dv, w2) =>
        match decodeDict env ps with
        | .error e => .error e
        | .ok (dps, w3) => .ok ((dk, dv) :: dps, w1 ++ w2 ++ w3)

end

/-- Decode the encoding: `_decode_switch` applied to the value tree
`_encode_switch` produced (the `json.dumps` / `json.loads` pair in
between is the identity on `jsonStable` trees, asserted separately in the
round-trip theorems). -/
def roundTrip (env : PyEnv) (v : PyVal) : Except PyErr PyVal :=
  match encodeSwitch v with
  | .error e => .error e
  | .ok (v', _) =>
    match decodeSwitch env v' with
    | .error e => .error e
    | .ok (r, _) => .ok r

example : roundTrip emptyEnv (.vNpInt 5) = .ok (.vInt 5) := by rfl

example : roundTrip emptyEnv (.vTuple [.vInt 1, .vInt 2, .vInt 3]) =
    .ok (.vTuple [.vInt 1, .vInt 2, .vInt 3]) := by rfl

example : roundTrip emptyEnv (.vDict [(.vInt 5, .vStr "a"), (.vFloat 25 1, .vStr "b")]) =
    .ok (.vDict [(.vInt 5, .vStr "a"), (.vFloat 25 1, .vStr "b")]) := by rfl

example : decodeSwitch emptyEnv (.vStr "__type__(nonexistent.module.Thing)") =
    .ok (.vStr "nonexistent.module.Thing", ["Could not load nonexistent.module.Thing"]) := by rfl

/-! ## `TensorboardXHandler._create_frequencies` (`tensorboardx_handler.py`) -/

/-- `TensorboardXHandler.SUPPORTED_MODES`. -/
def SUPPORTED_MODES : List String :=
  ["scalar", "image", "figure", "histogram", "audio", "text", "graph", "onnx_graph",
    "embedding", "pr_curve", "video"]

/-- The `logging_frequencies` argument: `None`, one global `int`, a list of
ints, or a mode-to-period dict (modelled as its insertion-ordered pairs). -/
inductive FreqArg where
  | fNone
  | fInt (n : Int)
  | fList (l : List Int)
  | fDict (d : List (String × Int))

/-- `TensorboardXHandler._create_frequencies`.  The branches are tested in
source order: `None`, `isinstance(_, int)`, `isinstance(_, Iterable)`,
`isinstance(_, dict)`.  A Python `dict` *is* an `Iterable` (iterating
yields its keys), so a dict argument is captured by the `Iterable` branch:
with fewer keys than modes the padding step evaluates `dict + list` and
raises `TypeError`; otherwise `zip(SUPPORTED_MODES, d)` pairs each mode
with a *key string* of `d`.  The `elif isinstance(_, dict)` branch is
unreachable.  The table's values are `PyVal`s because that dead branch
would have produced ints while the reachable dict path produces strings. -/
def createFrequencies : FreqArg → Except PyErr (List (String × PyVal))
  | .fNone => .ok (SUPPORTED_MODES.map (fun s => (s, .vInt 1)))
  | .fInt n => .ok (SUPPORTED_MODES.map (fun s => (s, .vInt n)))
  | .fList l =>
    let l' := if l.length < SUPPORTED_MODES.length
      then l ++ List.replicate (SUPPORTED_MODES.length - l.length) 1 else l
    .ok ((SUPPORTED_MODES.zip l').map (fun p => (p.1, .vInt p.2)))
  | .fDict d =>
    if d.length < SUPPORTED_MODES.length then
      .error (.typeError "unsupported operand types for +: dict and list")
    else .ok ((SUPPORTED_MODES.zip (d.map Prod.fst)).map (fun p => (p.1, .vStr p.2)))

/-- `TensorboardXHandler.emit` fires the operation for a mode exactly when
the incremented counter is a multiple of that mode's period. -/
def emitFires (counter : Int) (period : Int) : Bool := counter % period == 0

example : createFrequencies (.fDict [("scalar", 2)]) =
    .error (.typeError "unsupported operand types for +: dict and list") := by rfl

example : createFrequencies (.fList [3]) =
    .ok [("scalar", .vInt 3), ("image", .vInt 1), ("figure", .vInt 1), ("histogram", .vInt 1),
      ("audio", .vInt 1), ("text", .vInt 1), ("graph", .vInt 1), ("onnx_graph", .vInt 1),
      ("embedding", .vInt 1), ("pr_curve", .vInt 1), ("video", .vInt 1)] := by rfl

/-! ### Tag-string lemmas -/

theorem data_append (a b : String) : (a ++ b).data = a.data ++ b.data := by
  cases a
  cases b
  rfl

theorem hasPre_append (pre : String) (rest : List Char) :
    hasPre pre (pre.data ++ rest) = true := by
  simp [hasPre, stripPre_append]

theorem tag_data (pre payload : String) :
    (pre ++ payload ++ ")").data = pre.data ++ (payload.data ++ [')']) := by
  rw [data_append, data_append]
  have h : (")" : String).data = [')'] := rfl
  rw [h, List.append_assoc]

theorem pySlice_wrap (pre payload : String) :
    pySlice pre.data.length (pre ++ payload ++ ")") = payload := by
  unfold pySlice
  rw [tag_data, List.drop_left, List.dropLast_concat, strEta]

theorem hasPre_type_of_int (rest : List Char) :
    hasPre "__type__" ("__int__(".data ++ rest) = false := by
  have h : "__int__(".data ++ rest = '_' :: '_' :: 'i' :: 'n' :: 't' :: '_' :: '_' :: '(' :: rest := rfl
  rw [h]
  simp [hasPre, stripPre]

theorem hasPre_function_of_int (rest : List Char) :
    hasPre "__function__" ("__int__(".data ++ rest) = false := by
  have h : "__int__(".data ++ rest = '_' :: '_' :: 'i' :: 'n' :: 't' :: '_' :: '_' :: '(' :: rest := rfl
  rw [h]
  simp [hasPre, stripPre]

theorem hasPre_module_of_int (rest : List Char) :
    hasPre "__module__" ("__int__(".data ++ rest) = false := by
  have h : "__int__(".data ++ rest = '_' :: '_' :: 'i' :: 'n' :: 't' :: '_' :: '_' :: '(' :: rest := rfl
  rw [h]
  simp [hasPre, stripPre]

theorem hasPre_type_of_float (rest : List Char) :
    hasPre "__type__" ("__float__(".data ++ rest) = false := by
  have h : "__float__(".data ++ rest =
    '_' :: '_' :: 'f' :: 'l' :: 'o' :: 'a' :: 't' :: '_' :: '_' :: '(' :: rest := rfl
  rw [h]
  simp [hasPre, stripPre]

theorem hasPre_function_of_float (rest : List Char) :
    hasPre "__function__" ("__float__(".data ++ rest) = false := by
  have h : "__float__(".data ++ rest =
    '_' :: '_' :: 'f' :: 'l' :: 'o' :: 'a' :: 't' :: '_' :: '_' :: '(' :: rest := rfl
  rw [h]
  simp [hasPre, stripPre]

theorem hasPre_module_of_float (rest : List Char) :
    hasPre "__module__" ("__float__(".data ++ rest) = false := by
  have h : "__float__(".data ++ rest =
    '_' :: '_' :: 'f' :: 'l' :: 'o' :: 'a' :: 't' :: '_' :: '_' :: '(' :: rest := rfl
  rw [h]
  simp [hasPre, stripPre]

theorem hasPre_int_of_float (rest : List Char) :
    hasPre "__int__" ("__float__(".data ++ rest) = false := by
  have h : "__float__(".data ++ rest =
    '_' :: '_' :: 'f' :: 'l' :: 'o' :: 'a' :: 't' :: '_' :: '_' :: '(' :: rest := rfl
  rw [h]
  simp [hasPre, stripPre]

theorem hasPre_type_of_tuple (rest : List Char) :
    hasPre "__type__" ("__tuple__(".data ++ rest) = false := by
  have h : "__tuple__(".data ++ rest =
    '_' :: '_' :: 't' :: 'u' :: 'p' :: 'l' :: 'e' :: '_' :: '_' :: '(' :: rest := rfl
  rw [h]
  simp [hasPre, stripPre]

theorem hasPre_function_of_tuple (rest : List Char) :
    hasPre "__function__" ("__tuple__(".data ++ rest) = false := by
  have h : "__tuple__(".data ++ rest =
    '_' :: '_' :: 't' :: 'u' :: 'p' :: 'l' :: 'e' :: '_' :: '_' :: '(' :: rest := rfl
  rw [h]
  simp [hasPre, stripPre]

theorem hasPre_module_of_tuple (rest : List Char) :
    hasPre "__module__" ("__tuple__(".data ++ rest) = false := by
  have h : "__tuple__(".data ++ rest =
    '_' :: '_' :: 't' :: 'u' :: 'p' :: 'l' :: 'e' :: '_' :: '_' :: '(' :: rest := rfl
  rw [h]
  simp [hasPre, stripPre]

theorem hasPre_int_of_tuple (rest : List Char) :
    hasPre "__int__" ("__tuple__(".data ++ rest) = false := by
  have h : "__tuple__(".data ++ rest =
    '_' :: '_' :: 't' :: 'u' :: 'p' :: 'l' :: 'e' :: '_' :: '_' :: '(' :: rest := rfl
  rw [h]
  simp [hasPre, stripPre]

theorem hasPre_float_of_tuple (rest : List Char) :
    hasPre "__float__" ("__tuple__(".data ++ rest) = false := by
  have h : "__tuple__(".data ++ rest =
    '_' :: '_' :: 't' :: 'u' :: 'p' :: 'l' :: 'e' :: '_' :: '_' :: '(' :: rest := rfl
  rw [h]
  simp [hasPre, stripPre]

theorem hasPre_type_of_function (rest : List Char) :
    hasPre "__type__" ("__function__(".data ++ rest) = false := by
  have h : "__function__(".data ++ rest =
    '_' :: '_' :: 'f' :: 'u' :: 'n' :: 'c' :: 't' :: 'i' :: 'o' :: 'n' :: '_' :: '_' :: '(' :: rest := rfl
  rw [h]
  simp [hasPre, stripPre]

theorem hasPre_type_of_module (rest : List Char) :
    hasPre "__type__" ("__module__(".data ++ rest) = false := by
  have h : "__module__(".data ++ rest =
    '_' :: '_' :: 'm' :: 'o' :: 'd' :: 'u' :: 'l' :: 'e' :: '_' :: '_' :: '(' :: rest := rfl
  rw [h]
  simp [hasPre, stripPre]

theorem hasPre_function_of_module (rest : List Char) :
    hasPre "__function__" ("__module__(".data ++ rest) = false := by
  have h : "__module__(".data ++ rest =
    '_' :: '_' :: 'm' :: 'o' :: 'd' :: 'u' :: 'l' :: 'e' :: '_' :: '_' :: '(' :: rest := rfl
  rw [h]
  simp [hasPre, stripPre]

/-! ### Leaf-level encode/decode lemmas -/

/-- Does `s` start with one of the six reserved tag prefixes? -/
def taggedStr (s : String) : Bool :=
  hasPre "__int__" s.data || hasPre "__float__" s.data || hasPre "__tuple__" s.data ||
  hasPre "__type__" s.data || hasPre "__function__" s.data || hasPre "__module__" s.data

theorem tagged_data_shape (pre payload : String) :
    (pre ++ payload ++ ")").data = pre.data ++ (payload.data ++ [')']) := tag_data pre payload

theorem moduleDecodeLeaf_intTag (env : PyEnv) (n : Int) :
    moduleDecodeLeaf env (.vStr ("__int__(" ++ intRepr n ++ ")")) = .ok (.vInt n, []) := by
  have hdata : ("__int__(" ++ intRepr n ++ ")").data =
      "__int__(".data ++ (intReprChars n ++ [')']) := by
    rw [tag_data]
    rfl
  have hslice : pySlice 8 ("__int__(" ++ intRepr n ++ ")") = intRepr n := by
    have h8 : (8 : Nat) = ("__int__(" : String).data.length := rfl
    rw [h8]
    exact pySlice_wrap "__int__(" (intRepr n)
  have hint : hasPre "__int__" ("__int__(".data ++ (intReprChars n ++ [')'])) = true := by
    have h : "__int__(".data ++ (intReprChars n ++ [')']) =
        ("__int__" : String).data ++ ('(' :: (intReprChars n ++ [')'])) := rfl
    rw [h]
    exact hasPre_append "__int__" _
  have hparse : parsePyInt (intRepr n) = some n := by
    show parseIntChars (intRepr n).data = some n
    have h : (intRepr n).data = intReprChars n := rfl
    rw [h]
    exact parseIntChars_intReprChars n
  rw [moduleDecodeLeaf, hdata, hasPre_type_of_int, hasPre_function_of_int, hasPre_module_of_int]
  simp only [Bool.false_eq_true, if_false]
  rw [multiDecodeLeaf, hdata, hint]
  simp only [if_true, hslice, hparse, eq_self_iff_true]

theorem moduleDecodeLeaf_floatTag (env : PyEnv) (m : Int) (k : Nat)
    (hc : floatCanonB m k = true) :
    moduleDecodeLeaf env (.vStr ("__float__(" ++ floatRepr m k ++ ")")) =
      .ok (.vFloat m k, []) := by
  have hdata : ("__float__(" ++ floatRepr m k ++ ")").data =
      "__float__(".data ++ (floatReprChars m k ++ [')']) := by
    rw [tag_data]
    rfl
  have hslice : pySlice 10 ("__float__(" ++ floatRepr m k ++ ")") = floatRepr m k := by
    have h10 : (10 : Nat) = ("__float__(" : String).data.length := rfl
    rw [h10]
    exact pySlice_wrap "__float__(" (floatRepr m k)
  have hfl : hasPre "__float__" ("__float__(".data ++ (floatReprChars m k ++ [')'])) = true := by
    have h : "__float__(".data ++ (floatReprChars m k ++ [')']) =
        ("__float__" : String).data ++ ('(' :: (floatReprChars m k ++ [')'])) := rfl
    rw [h]
    exact hasPre_append "__float__" _
  have hparse : parsePyFloat (floatRepr m k) = some (m, k) := by
    show parseFloatChars (floatRepr m k).data = some (m, k)
    have h : (floatRepr m k).data = floatReprChars m k := rfl
    rw [h]
    exact parseFloatChars_floatReprChars m k hc
  rw [moduleDecodeLeaf, hdata, hasPre_type_of_float, hasPre_function_of_float,
    hasPre_module_of_float]
  simp only [Bool.false_eq_true, if_false]
  rw [multiDecodeLeaf, hdata, hasPre_int_of_float, hfl]
  simp only [Bool.false_eq_true, if_false, if_true, hslice, hparse, eq_self_iff_true]

theorem moduleDecodeLeaf_tupleTag (env : PyEnv) (xs : List PyVal)
    (hall : xs.all plainScalarB = true) :
    moduleDecodeLeaf env (.vStr ("__tuple__(" ++ pyRepr (.vTuple xs) ++ ")")) =
      .ok (.vTuple xs, []) := by
  have hdata : ("__tuple__(" ++ pyRepr (.vTuple xs) ++ ")").data =
      "__tuple__(".data ++ (pyReprChars (.vTuple xs) ++ [')']) := by
    rw [tag_data]
    rfl
  have hslice : pySlice 10 ("__tuple__(" ++ pyRepr (.vTuple xs) ++ ")") =
      pyRepr (.vTuple xs) := by
    have h10 : (10 : Nat) = ("__tuple__(" : String).data.length := rfl
    rw [h10]
    exact pySlice_wrap "__tuple__(" (pyRepr (.vTuple xs))
  have htu : hasPre "__tuple__"
      ("__tuple__(".data ++ (pyReprChars (.vTuple xs) ++ [')'])) = true := by
    have h : "__tuple__(".data ++ (pyReprChars (.vTuple xs) ++ [')']) =
        ("__tuple__" : String).data ++ ('(' :: (pyReprChars (.vTuple xs) ++ [')'])) := rfl
    rw [h]
    exact hasPre_append "__tuple__" _
  have hparse : parseTupleLitChars (pyRepr (.vTuple xs)).data = some xs := by
    have h : (pyRepr (.vTuple xs)).data = pyReprChars (.vTuple xs) := rfl
    rw [h]
    exact parseTupleLit_reprTuple xs hall
  rw [moduleDecodeLeaf, hdata, hasPre_type_of_tuple, hasPre_function_of_tuple,
    hasPre_module_of_tuple]
  simp only [Bool.false_eq_true, if_false]
  rw [multiDecodeLeaf, hdata, hasPre_int_of_tuple, hasPre_float_of_tuple, htu]
  simp only [Bool.false_eq_true, if_false, if_true, hslice, hparse, eq_self_iff_true]

theorem moduleDecodeLeaf_untagged (env : PyEnv) (s : String) (h : taggedStr s = false) :
    moduleDecodeLeaf env (.vStr s) = .ok (.vStr s, []) := by
  simp only [taggedStr, Bool.or_eq_false_iff] at h
  obtain ⟨⟨⟨⟨⟨hi, hf⟩, htu⟩, hty⟩, hfn⟩, hmo⟩ := h
  rw [moduleDecodeLeaf, hty, hfn, hmo]
  simp only [Bool.false_eq_true, if_false]
  rw [multiDecodeLeaf, hi, hf, htu]
  simp only [Bool.false_eq_true, if_false]

/-! ### Switch-level helper lemmas and claim-support definitions -/

theorem decodeSwitch_str (env : PyEnv) (s : String) :
    decodeSwitch env (.vStr s) = moduleDecodeLeaf env (.vStr s) := rfl

theorem data_mk (l : List Char) : (String.mk l).data = l := rfl

/-- The module part of a dotted path, as the decoder computes it:
`".".join(text.split(".")[:-1])`. -/
def dottedMod (p : String) : String := String.mk (joinDots (splitDot p.data).dropLast)

/-- The attribute part of a dotted path, as the decoder computes it:
`text.split(".")[-1]`. -/
def dottedName (p : String) : String := String.mk ((splitDot p.data).getLastD [])

/-- **C4**: for every tagged reference string whose dotted path cannot be
resolved — a `__type__(P)` or `__function__(P)` whose module/attribute
lookup fails, or a `__module__(P)` whose import fails — decode does not
raise: in every case it emits the warning `Could not load P` and returns
the raw path string `P` as a degraded placeholder. -/
theorem C4_unresolvable_reference_decode (env : PyEnv) (P : String)
    (hattr : env.importAttr (dottedMod P) (dottedName P) = none)
    (hmod : env.importMod P = none) :
    decodeSwitch env (.vStr ("__type__(" ++ P ++ ")")) =
      .ok (.vStr P, ["Could not load " ++ P]) ∧
    decodeSwitch env (.vStr ("__function__(" ++ P ++ ")")) =
      .ok (.vStr P, ["Could not load " ++ P]) ∧
    decodeSwitch env (.vStr ("__module__(" ++ P ++ ")")) =
      .ok (.vStr P, ["Could not load " ++ P]) := by
  simp only [dottedMod, dottedName] at hattr
  refine ⟨?_, ?_, ?_⟩
  · have htype : hasPre "__type__" ("__type__(" ++ P ++ ")").data = true := by
      rw [tag_data "__type__(" P]
      have h : "__type__(".data ++ (P.data ++ [')']) =
          ("__type__" : String).data ++ ('(' :: (P.data ++ [')'])) := rfl
      rw [h]
      exact hasPre_append "__type__" _
    have hp : pySlice 9 ("__type__(" ++ P ++ ")") = P := by
      have h9 : (9 : Nat) = ("__type__(" : String).data.length := rfl
      rw [h9]
      exact pySlice_wrap "__type__(" P
    rw [decodeSwitch_str, moduleDecodeLeaf, htype]
    simp only [if_true, eq_self_iff_true, hp, hattr]
  · have hfn : hasPre "__function__" ("__function__(".data ++ (P.data ++ [')'])) = true := by
      have h : "__function__(".data ++ (P.data ++ [')']) =
          ("__function__" : String).data ++ ('(' :: (P.data ++ [')'])) := rfl
      rw [h]
      exact hasPre_append "__function__" _
    have hp : pySlice 13 ("__function__(" ++ P ++ ")") = P := by
      have h13 : (13 : Nat) = ("__function__(" : String).data.length := rfl
      rw [h13]
      exact pySlice_wrap "__function__(" P
    rw [decodeSwitch_str, moduleDecodeLeaf, tag_data "__function__(" P,
      hasPre_type_of_function, hfn]
    simp only [Bool.false_eq_true, if_false, if_true, eq_self_iff_true, hp, hattr]
  · have hmo : hasPre "__module__" ("__module__(".data ++ (P.data ++ [')'])) = true := by
      have h : "__module__(".data ++ (P.data ++ [')']) =
          ("__module__" : String).data ++ ('(' :: (P.data ++ [')'])) := rfl
      rw [h]
      exact hasPre_append "__module__" _
    have hp : pySlice 11 ("__module__(" ++ P ++ ")") = P := by
      have h11 : (11 : Nat) = ("__module__(" : String).data.length := rfl
      rw [h11]
      exact pySlice_wrap "__module__(" P
    rw [decodeSwitch_str, moduleDecodeLeaf, tag_data "__module__(" P,
      hasPre_type_of_module, hasPre_function_of_module, hmo]
    simp only [Bool.false_eq_true, if_false, if_true, eq_self_iff_true, hp, hmod]

/-- **C4** witness: the theorem applied in the empty interpreter to the
path `nonexistent.module.Thing`, for all three reference tags. -/
theorem C4_witness :
    decodeSwitch emptyEnv (.vStr "__type__(nonexistent.module.Thing)") =
      .ok (.vStr "nonexistent.module.Thing",
        ["Could not load nonexistent.module.Thing"]) ∧
    decodeSwitch emptyEnv (.vStr "__function__(nonexistent.module.Thing)") =
      .ok (.vStr "nonexistent.module.Thing",
        ["Could not load nonexistent.module.Thing"]) ∧
    decodeSwitch emptyEnv (.vStr "__module__(nonexistent.module.Thing)") =
      .ok (.vStr "nonexistent.module.Thing",
        ["Could not load nonexistent.module.Thing"]) :=
  C4_unresolvable_reference_decode emptyEnv "nonexistent.module.Thing" rfl rfl

theorem type_tag_data (M N : String) :
    ("__type__(" ++ M ++ "." ++ N ++ ")").data =
      "__type__(".data ++ ((M.data ++ '.' :: N.data) ++ [')']) := by
  rw [data_append, data_append, data_append, data_append]
  have h1 : ("." : String).data = ['.'] := rfl
  have h2 : (")" : String).data = [')'] := rfl
  rw [h1, h2]
  simp [List.append_assoc]

/-- **C5**: encoding a type object yields `__type__(<module>.<name>)`, and
decoding it in an interpreter whose import machinery resolves that dotted
path back to the same type object returns exactly that object. -/
theorem C5_type_reference_roundtrip (env : PyEnv) (M N : String)
    (hN : '.' ∉ N.data) (hres : env.importAttr M N = some (.vType M N)) :
    encodeSwitch (.vType M N) =
      .ok (.vStr ("__type__(" ++ M ++ "." ++ N ++ ")"), []) ∧
    roundTrip env (.vType M N) = .ok (.vType M N) := by
  refine ⟨rfl, ?_⟩
  have hdata := type_tag_data M N
  have htype : hasPre "__type__" ("__type__(" ++ M ++ "." ++ N ++ ")").data = true := by
    rw [hdata]
    have h : "__type__(".data ++ ((M.data ++ '.' :: N.data) ++ [')']) =
        ("__type__" : String).data ++ ('(' :: ((M.data ++ '.' :: N.data) ++ [')'])) := rfl
    rw [h]
    exact hasPre_append "__type__" _
  have hp : pySlice 9 ("__type__(" ++ M ++ "." ++ N ++ ")") =
      String.mk (M.data ++ '.' :: N.data) := by
    unfold pySlice
    rw [hdata]
    have h9 : (9 : Nat) = ("__type__(" : String).data.length := rfl
    rw [h9, List.drop_left, List.dropLast_concat]
  have hparts : splitDot (M.data ++ '.' :: N.data) = splitDot M.data ++ [N.data] :=
    splitDot_append M.data N.data hN
  have hmod : String.mk (joinDots (splitDot M.data ++ [N.data]).dropLast) = M := by
    rw [List.dropLast_concat, joinDots_splitDot, strEta]
  have hname : String.mk ((splitDot M.data ++ [N.data]).getLastD []) = N := by
    rw [List.getLastD_concat]
  have hdec : moduleDecodeLeaf env (.vStr ("__type__(" ++ M ++ "." ++ N ++ ")")) =
      .ok (.vType M N, []) := by
    rw [moduleDecodeLeaf, htype]
    simp only [if_true, eq_self_iff_true, hp, data_mk, hparts, hmod, hname, hres]
  have hstep : roundTrip env (.vType M N) =
      (match decodeSwitch env (.vStr ("__type__(" ++ M ++ "." ++ N ++ ")")) with
        | .error e => .error e
        | .ok (r, _) => .ok r) := rfl
  rw [hstep, decodeSwitch_str, hdec]

/-- An interpreter resolving exactly `builtins.int` to the `int` class. -/
def builtinsEnv : PyEnv :=
  ⟨fun m n => if m = "builtins" && n = "int" then some (.vType "builtins" "int") else none,
    fun _ => none⟩

/-- **C5** witness: the theorem applied to `T = int` (`builtins.int`) in an
interpreter that resolves that path. -/
theorem C5_witness :
    roundTrip builtinsEnv (.vType "builtins" "int") = .ok (.vType "builtins" "int") :=
  (C5_type_reference_roundtrip builtinsEnv "builtins" "int" (by decide) rfl).2

/-- **C2** (as stated in the spec): encoding a locally defined, unimportable
object under default mode yields a textual substitute and a warning, and
raises under strict mode.  False: `MultiTypeEncoder._encode` ends in
`return obj`, so the inherited chain never raises; the object comes back
*unchanged* (no `repr` substitute), with *no* warning, and `strict` has no
observable effect. -/
theorem C2_counterexample :
    moduleEncodeLeaf false (.vObj "<Foo object>") = .ok (.vObj "<Foo object>", []) ∧
    moduleEncodeLeaf true (.vObj "<Foo object>") = .ok (.vObj "<Foo object>", []) :=
  ⟨rfl, rfl⟩

/-- **C2**, amended: `_encode` returns an unrecognized object unchanged with
no warning in both default and strict mode — the warn-and-`repr` fallback is
dead code because the inherited encoder's final branch returns the object
instead of raising — and the overall `encode` then raises `TypeError` at
the JSON-serialization step in both modes, so `strict` changes nothing. -/
theorem C2_unencodable_passthrough (r : String) (strict : Bool) :
    moduleEncodeLeaf strict (.vObj r) = .ok (.vObj r, []) ∧
    multiEncodeLeaf (.vObj r) = .ok (.vObj r) ∧
    encodeFull (.vObj r) = .error (.typeError "Object is not JSON serializable") := by
  refine ⟨?_, rfl, rfl⟩
  cases strict <;> rfl

/-- **C3** (as stated in the spec): a tag-prefixed string with an
unparseable payload fails only that single leaf, leaving the rest of the
structure decodable.  False: `int("abc")` raises `ValueError`, and nothing
catches it — decoding `["__int__(abc)", "ok"]` aborts entirely even though
the second leaf alone decodes fine. -/
theorem C3_counterexample :
    decodeSwitch emptyEnv (.vList [.vStr "__int__(abc)", .vStr "ok"]) =
      .error (.valueError "abc") ∧
    decodeSwitch emptyEnv (.vStr "ok") = .ok (.vStr "ok", []) :=
  ⟨rfl, rfl⟩

/-- **C3**, amended: a string matching a tag prefix whose payload cannot be
parsed raises `ValueError`, and the error propagates through
`_decode_switch`: the whole decode aborts, whatever else the structure
contains — the failure is not contained at the leaf. -/
theorem C3_malformed_payload_aborts (env : PyEnv) (rest : List PyVal) :
    decodeSwitch env (.vList (.vStr "__int__(abc)" :: rest)) =
      .error (.valueError "abc") := rfl

/-- **C6**: a tuple of plain scalars encodes to
`__tuple__(<its printed form>)` — a JSON-stable string — and decoding the
encoding restores an equal value that is again a tuple. -/
theorem C6_tuple_roundtrip (env : PyEnv) (xs : List PyVal)
    (hall : xs.all plainScalarB = true) :
    encodeSwitch (.vTuple xs) =
      .ok (.vStr ("__tuple__(" ++ pyRepr (.vTuple xs) ++ ")"), []) ∧
    jsonStable (.vStr ("__tuple__(" ++ pyRepr (.vTuple xs) ++ ")")) = true ∧
    roundTrip env (.vTuple xs) = .ok (.vTuple xs) := by
  refine ⟨rfl, rfl, ?_⟩
  have hdec := moduleDecodeLeaf_tupleTag env xs hall
  have hstep : roundTrip env (.vTuple xs) =
      (match decodeSwitch env (.vStr ("__tuple__(" ++ pyRepr (.vTuple xs) ++ ")")) with
        | .error e => .error e
        | .ok (r, _) => .ok r) := rfl
  rw [hstep, decodeSwitch_str, hdec]

/-- **C6** witness: the theorem applied to `(1, 2, 3)`. -/
theorem C6_witness :
    roundTrip emptyEnv (.vTuple [.vInt 1, .vInt 2, .vInt 3]) =
      .ok (.vTuple [.vInt 1, .vInt 2, .vInt 3]) :=
  (C6_tuple_roundtrip emptyEnv [.vInt 1, .vInt 2, .vInt 3] rfl).2.2

/-! ### Dict round-trip helpers for numeric keys -/

/-- A dict key covered by the numeric-key round trip: native `int` or
canonical native `float`. -/
def numericKey : PyVal → Bool
  | .vInt _ => true
  | .vFloat m k => floatCanonB m k
  | _ => false

/-- A dict value that passes both walkers unchanged: a string carrying no
reserved tag prefix. -/
def plainStrVal : PyVal → Bool
  | .vStr s => !taggedStr s
  | _ => false

/-- The tagged string `_encode_key` produces for a numeric key. -/
def keyTagStr : PyVal → String
  | .vInt n => "__int__(" ++ intRepr n ++ ")"
  | .vFloat m k => "__float__(" ++ floatRepr m k ++ ")"
  | _ => ""

theorem encodeDict_numeric_keys (entries : List (PyVal × PyVal))
    (h : entries.all (fun p => numericKey p.1 && plainStrVal p.2) = true) :
    encodeDict entries =
      .ok (entries.map (fun p => (.vStr (keyTagStr p.1), p.2)), []) := by
  induction entries with
  | nil => rfl
  | cons p ps ih =>
    obtain ⟨k, v⟩ := p
    rw [List.all_cons, Bool.and_eq_true] at h
    rw [Bool.and_eq_true] at h
    obtain ⟨⟨hk, hv⟩, hps⟩ := h
    have hkey : moduleEncodeKey k = .ok (.vStr (keyTagStr k), []) := by
      cases k with
      | vInt n => rfl
      | vFloat m j => rfl
      | vBool b => simp [numericKey] at hk
      | vNone => simp [numericKey] at hk
      | vNpInt n => simp [numericKey] at hk
      | vNpFloat m j => simp [numericKey] at hk
      | vStr s => simp [numericKey] at hk
      | vList xs => simp [numericKey] at hk
      | vTuple xs => simp [numericKey] at hk
      | vDict qs => simp [numericKey] at hk
      | vNdArray c => simp [numericKey] at hk
      | vType a b => simp [numericKey] at hk
      | vFunction a b => simp [numericKey] at hk
      | vModule a => simp [numericKey] at hk
      | vObj r => simp [numericKey] at hk
    have hval : encodeSwitch v = .ok (v, []) := by
      cases v with
      | vStr s => rfl
      | vNone => simp [plainStrVal] at hv
      | vBool b => simp [plainStrVal] at hv
      | vInt n => simp [plainStrVal] at hv
      | vFloat m j => simp [plainStrVal] at hv
      | vNpInt n => simp [plainStrVal] at hv
      | vNpFloat m j => simp [plainStrVal] at hv
      | vList xs => simp [plainStrVal] at hv
      | vTuple xs => simp [plainStrVal] at hv
      | vDict qs => simp [plainStrVal] at hv
      | vNdArray c => simp [plainStrVal] at hv
      | vType a b => simp [plainStrVal] at hv
      | vFunction a b => simp [plainStrVal] at hv
      | vModule a => simp [plainStrVal] at hv
      | vObj r => simp [plainStrVal] at hv
    rw [encodeDict, hkey, hval, ih hps]
    simp

theorem decodeDict_numeric_keys (env : PyEnv) (entries : List (PyVal × PyVal))
    (h : entries.all (fun p => numericKey p.1 && plainStrVal p.2) = true) :
    decodeDict env (entries.map (fun p => (.vStr (keyTagStr p.1), p.2))) =
      .ok (entries, []) := by
  induction entries with
  | nil => rfl
  | cons p ps ih =>
    obtain ⟨k, v⟩ := p
    rw [List.all_cons, Bool.and_eq_true] at h
    rw [Bool.and_eq_true] at h
    obtain ⟨⟨hk, hv⟩, hps⟩ := h
    have hkey : moduleDecodeLeaf env (.vStr (keyTagStr k)) = .ok (k, []) := by
      cases k with
      | vInt n => exact moduleDecodeLeaf_intTag env n
      | vFloat m j =>
        exact moduleDecodeLeaf_floatTag env m j (by simpa [numericKey] using hk)
      | vBool b => simp [numericKey] at hk
      | vNone => simp [numericKey] at hk
      | vNpInt n => simp [numericKey] at hk
      | vNpFloat m j => simp [numericKey] at hk
      | vStr s => simp [numericKey] at hk
      | vList xs => simp [numericKey] at hk
      | vTuple xs => simp [numericKey] at hk
      | vDict qs => simp [numericKey] at hk
      | vNdArray c => simp [numericKey] at hk
      | vType a b => simp [numericKey] at hk
      | vFunction a b => simp [numericKey] at hk
      | vModule a => simp [numericKey] at hk
      | vObj r => simp [numericKey] at hk
    have hval : decodeSwitch env v = .ok (v, []) := by
      cases v with
      | vStr s =>
        rw [decodeSwitch_str]
        exact moduleDecodeLeaf_untagged env s
          (by simpa [plainStrVal, Bool.not_eq_true'] using hv)
      | vNone => simp [plainStrVal] at hv
      | vBool b => simp [plainStrVal] at hv
      | vInt n => simp [plainStrVal] at hv
      | vFloat m j => simp [plainStrVal] at hv
      | vNpInt n => simp [plainStrVal] at hv
      | vNpFloat m j => simp [plainStrVal] at hv
      | vList xs => simp [plainStrVal] at hv
      | vTuple xs => simp [plainStrVal] at hv
      | vDict qs => simp [plainStrVal] at hv
      | vNdArray c => simp [plainStrVal] at hv
      | vType a b => simp [plainStrVal] at hv
      | vFunction a b => simp [plainStrVal] at hv
      | vModule a => simp [plainStrVal] at hv
      | vObj r => simp [plainStrVal] at hv
    rw [List.map_cons, decodeDict, hkey, hval, ih hps]
    simp

theorem jsonStableDict_tagged_keys (entries : List (PyVal × PyVal))
    (h : entries.all (fun p => numericKey p.1 && plainStrVal p.2) = true) :
    jsonStableDict (entries.map (fun p => (.vStr (keyTagStr p.1), p.2))) = true := by
  induction entries with
  | nil => rfl
  | cons p ps ih =>
    obtain ⟨k, v⟩ := p
    rw [List.all_cons, Bool.and_eq_true] at h
    rw [Bool.and_eq_true] at h
    obtain ⟨⟨hk, hv⟩, hps⟩ := h
    have hval : jsonStable v = true := by
      cases v with
      | vStr s => rfl
      | vNone => simp [plainStrVal] at hv
      | vBool b => simp [plainStrVal] at hv
      | vInt n => simp [plainStrVal] at hv
      | vFloat m j => simp [plainStrVal] at hv
      | vNpInt n => simp [plainStrVal] at hv
      | vNpFloat m j => simp [plainStrVal] at hv
      | vList xs => simp [plainStrVal] at hv
      | vTuple xs => simp [plainStrVal] at hv
      | vDict qs => simp [plainStrVal] at hv
      | vNdArray c => simp [plainStrVal] at hv
      | vType a b => simp [plainStrVal] at hv
      | vFunction a b => simp [plainStrVal] at hv
      | vModule a => simp [plainStrVal] at hv
      | vObj r => simp [plainStrVal] at hv
    rw [List.map_cons, jsonStableDict, hval, ih hps]
    simp

/-- **C7**: a mapping with native integer and float keys has its keys
tag-encoded to the strings `__int__(...)` / `__float__(...)` (a JSON-stable
object), and decoding the encoding restores the original integer and float
keys — not the plain key strings. -/
theorem C7_numeric_key_roundtrip (env : PyEnv) (entries : List (PyVal × PyVal))
    (h : entries.all (fun p => numericKey p.1 && plainStrVal p.2) = true) :
    encodeSwitch (.vDict entries) =
      .ok (.vDict (entries.map (fun p => (.vStr (keyTagStr p.1), p.2))), []) ∧
    jsonStable (.vDict (entries.map (fun p => (.vStr (keyTagStr p.1), p.2)))) = true ∧
    roundTrip env (.vDict entries) = .ok (.vDict entries) := by
  have henc := encodeDict_numeric_keys entries h
  have hdec := decodeDict_numeric_keys env entries h
  have hstable := jsonStableDict_tagged_keys entries h
  have he : encodeSwitch (.vDict entries) =
      .ok (.vDict (entries.map (fun p => (.vStr (keyTagStr p.1), p.2))), []) := by
    rw [encodeSwitch, henc]
  refine ⟨he, by rw [jsonStable, hstable], ?_⟩
  have hd : decodeSwitch env (.vDict (entries.map (fun p => (.vStr (keyTagStr p.1), p.2)))) =
      .ok (.vDict entries, []) := by
    rw [decodeSwitch, hdec]
  rw [roundTrip, he]
  simp only [hd]

/-- **C7** witness: the theorem applied to the two-entry example mapping
integer key 5 to "a" and float key 2.5 to "b". -/
theorem C7_witness :
    roundTrip emptyEnv (.vDict [(.vInt 5, .vStr "a"), (.vFloat 25 1, .vStr "b")]) =
      .ok (.vDict [(.vInt 5, .vStr "a"), (.vFloat 25 1, .vStr "b")]) :=
  (C7_numeric_key_roundtrip emptyEnv
    [(.vInt 5, .vStr "a"), (.vFloat 25 1, .vStr "b")] rfl).2.2

/-- **C8**: a 2×2 numeric buffer encodes to the nested plain lists
`[[a, b], [c, d]]` (its `.tolist()` image, not re-walked), and decoding
that encoding returns the same nested plain lists — value-equal to the
buffer's contents but no longer an array value. -/
theorem C8_ndarray_lossy_roundtrip (env : PyEnv) (a b c d : Int) :
    encodeSwitch (.vNdArray (.vList [.vList [.vInt a, .vInt b], .vList [.vInt c, .vInt d]])) =
      .ok (.vList [.vList [.vInt a, .vInt b], .vList [.vInt c, .vInt d]], []) ∧
    jsonStable (.vList [.vList [.vInt a, .vInt b], .vList [.vInt c, .vInt d]]) = true ∧
    roundTrip env (.vNdArray (.vList [.vList [.vInt a, .vInt b], .vList [.vInt c, .vInt d]])) =
      .ok (.vList [.vList [.vInt a, .vInt b], .vList [.vInt c, .vInt d]]) ∧
    (.vList [.vList [.vInt a, .vInt b], .vList [.vInt c, .vInt d]] : PyVal) ≠
      .vNdArray (.vList [.vList [.vInt a, .vInt b], .vList [.vInt c, .vInt d]]) :=
  ⟨rfl, rfl, rfl, fun h => PyVal.noConfusion h⟩

/-- **C9**: the handler's own docstring promises that a dict
`logging_frequencies` maps each supported mode to its period, missing
modes defaulting to 1.  The code tests `isinstance(_, Iterable)` before
`isinstance(_, dict)`, and a Python dict is `Iterable`, so the dict branch
is dead: a partial dict crashes with `TypeError` on `dict + [1, ...]`, and
a complete 11-key dict builds a table whose values are the dict's *key
strings*, not the periods. -/
theorem C9_dict_frequencies_bug :
    createFrequencies (.fDict [("scalar", 2)]) =
      .error (.typeError "unsupported operand types for +: dict and list") ∧
    createFrequencies (.fDict (SUPPORTED_MODES.map (fun s => (s, 2)))) =
      .ok (SUPPORTED_MODES.map (fun s => (s, .vStr s))) :=
  ⟨rfl, rfl⟩

/-- **C10**: a boolean dict key is caught by the integer-key rule
(`bool` is a subtype of `int`), encoding without error to
`__int__(True)` / `__int__(False)`; decoding then fails because
`int("True")` raises `ValueError`, so boolean-keyed mappings encode but do
not round-trip. -/
theorem C10_bool_key_no_roundtrip (env : PyEnv) (b : Bool) :
    moduleEncodeKey (.vBool b) =
      .ok (.vStr ("__int__(" ++ (if b then "True" else "False") ++ ")"), []) ∧
    encodeSwitch (.vDict [(.vBool b, .vStr "a")]) =
      .ok (.vDict [(.vStr ("__int__(" ++ (if b then "True" else "False") ++ ")"),
        .vStr "a")], []) ∧
    roundTrip env (.vDict [(.vBool b, .vStr "a")]) =
      .error (.valueError (if b then "True" else "False")) := by
  cases b with
  | true => exact ⟨rfl, rfl, rfl⟩
  | false => exact ⟨rfl, rfl, rfl⟩
